/-
  Verification development for BlackOrder/OpeningHoursService.

  The TypeScript class `OpeningHoursService` (src/OpeningHoursService.ts) is
  shallowly embedded below.  Wall-clock times are the same `HH:mm` strings the
  source manipulates; minutes are `Int`; a JavaScript `NaN` arising from
  `Number(...)` on a non-numeric component is rendered as `Option.none`
  (every use of such a value in the source is a comparison, and comparisons
  with `NaN` are `false`).  Numeric string components are modelled as decimal
  digit strings (`String.toNat?`), which agrees with JavaScript `Number` on
  every digit string.

  The two external collaborators (the `date-fns-tz` timezone library and the
  `opening_hours` recurring-schedule engine) are outside the repository; they
  are modelled from the spec's collaborator contracts: IANA zones become a
  lookup table `Tzdb` of fixed offsets in minutes (the spec's round-trip and
  export properties are stated for fixed zones without a DST transition), and
  the compiled engine is represented by the compact schedule string the
  service hands to it.
-/
import Mathlib

/-- Two-digit zero padding, as produced by `format(date, 'HH:mm')`. -/
def pad2 (n : Nat) : String :=
  if n < 10 then "0" ++ toString n else toString n

/-- Renders a minutes-since-midnight value as an `HH:mm` string
(`formatHm 1440 = "24:00"`). `format(date, 'HH:mm')` only ever receives
values below 1440; the value 1440 is used to describe the `"24:00"`
sentinel literal. -/
def formatHm (v : Nat) : String :=
  pad2 (v / 60) ++ ":" ++ pad2 (v % 60)

/-- Splits a character list at every occurrence of the separator, keeping
empty pieces, exactly like JavaScript `String.prototype.split` with a
one-character separator.  (Stated on `List Char` so that it reduces in the
kernel; `String.splitOn` is extensionally the same but is defined by
well-founded recursion.)  The first argument of the auxiliary accumulator is
the reversed current piece. -/
def splitOnCharAux (sep : Char) : List Char → List Char → List (List Char)
  | acc, [] => [acc.reverse]
  | acc, c :: cs =>
    if c = sep then acc.reverse :: splitOnCharAux sep [] cs
    else splitOnCharAux sep (c :: acc) cs

/-- JavaScript `s.split(sep)` for a one-character separator. -/
def splitOnChar (sep : Char) (s : String) : List (List Char) :=
  splitOnCharAux sep [] s.toList

/-- JavaScript `Number(...)` on a split piece, in the region this development
relies on.  The model is exact on three classes of input: an all-digit string
evaluates to its decimal value, the empty string evaluates to `0`
(`Number('') === 0`), and a string containing a character outside
JavaScript's numeric-literal alphabet (see `jsNumericChar`) evaluates to
`NaN` (`none`).  Strings outside these classes — signed, fractional,
exponent, whitespace-padded, hex or `Infinity` spellings — are coerced to
numbers (often non-integers) by JavaScript; this integer-minute model maps
them to `none`, and no theorem below states anything about such inputs: every
parse hypothesis is either a digit-string equation or a `jsDefinitelyNaN`
fact, both inside the exact region. -/
def jsNumber? (piece : List Char) : Option Nat :=
  if piece = [] then some 0
  else if piece.all (fun c => c.isDigit) then
    some (piece.foldl (fun n c => n * 10 + (c.toNat - 48)) 0)
  else none

/-- The raw `time.split(':').map(Number)` destructuring `[hours, minutes]`:
`none` models a `NaN` in either component (non-numeric component, or a
missing minutes component). Extra components beyond the second are ignored,
as in JavaScript destructuring. -/
def parseTimeParts (time : String) : Option (Nat × Nat) :=
  match splitOnChar ':' time with
  | h :: m :: _ =>
    match jsNumber? h, jsNumber? m with
    | some hh, some mm => some (hh, mm)
    | _, _ => none
  | _ => none

/-- `convertTimeToMinutes` from the source: minutes since midnight, with
`24:00` mapped to 1440. `none` models a `NaN` result. -/
def convertTimeToMinutes (time : String) : Option Int :=
  match parseTimeParts time with
  | some (hours, minutes) =>
    if hours == 24 && minutes == 0 then some 1440
    else some ((hours : Int) * 60 + minutes)
  | none => none

/-- JavaScript `a < b` on possibly-`NaN` minute values: `false` if either is `NaN`. -/
def optLt (a b : Option Int) : Bool :=
  match a, b with
  | some x, some y => x < y
  | _, _ => false

/-- JavaScript `a <= b` on possibly-`NaN` minute values: `false` if either is `NaN`. -/
def optLe (a b : Option Int) : Bool :=
  match a, b with
  | some x, some y => x ≤ y
  | _, _ => false

/-- `timeIsBefore` from the source. -/
def timeIsBefore (time1 time2 : String) : Bool :=
  optLt (convertTimeToMinutes time1) (convertTimeToMinutes time2)

/-- `areTimesAdjacent` from the source: `|m1 - m2| <= 1`
(`false` when either side is `NaN`). -/
def areTimesAdjacent (time1 time2 : String) : Bool :=
  match convertTimeToMinutes time1, convertTimeToMinutes time2 with
  | some x, some y => (x - y).natAbs ≤ 1
  | _, _ => false

-- sanity examples (concrete)
example : convertTimeToMinutes "24:00" = some 1440 := by decide
example : convertTimeToMinutes "25:00" = some 1500 := by decide
example : convertTimeToMinutes "ab:cd" = none := by decide
example : formatHm 1440 = "24:00" := by rfl
example : formatHm 61 = "01:01" := by rfl

set_option maxRecDepth 4000 in
/-- `parseTimeParts` inverts the `HH:mm` rendering, hour and minute parts
checked exhaustively over the ranges the program produces. -/
theorem parseTimeParts_pad2 : ∀ (a : Fin 25) (b : Fin 60),
    parseTimeParts (pad2 a.val ++ ":" ++ pad2 b.val) = some (a.val, b.val) := by
  decide

/-- `parseTimeParts` inverts `formatHm` on all values up to 1440. -/
theorem parseTimeParts_formatHm (v : Nat) (hv : v ≤ 1440) :
    parseTimeParts (formatHm v) = some (v / 60, v % 60) := by
  have ha : v / 60 < 25 := by omega
  have hb : v % 60 < 60 := by omega
  have := parseTimeParts_pad2 ⟨v / 60, ha⟩ ⟨v % 60, hb⟩
  simpa [formatHm] using this

/-- `convertTimeToMinutes` recovers the value of `formatHm` on `[0, 1440]`. -/
theorem convertTimeToMinutes_formatHm (v : Nat) (hv : v ≤ 1440) :
    convertTimeToMinutes (formatHm v) = some (v : Int) := by
  unfold convertTimeToMinutes
  rw [parseTimeParts_formatHm v hv]
  by_cases h1440 : v = 1440
  · subst h1440; decide
  · have h24 : (v / 60 == 24) = false := by
      rw [beq_eq_false_iff_ne]
      omega
    simp only [h24, Bool.false_and, Bool.false_eq_true, if_false]
    congr 1
    omega

/-! ## Data model -/

/-- `OpeningHoursSpecification` records (the source's input/output shape).
The `@type` field is spelled `atType`. -/
structure OpeningHoursSpecification where
  atType : String
  dayOfWeek : String
  opens : String
  closes : String
deriving Repr, DecidableEq

/-- `OpenRange` records (per-day view entries).  The source's `open` field is
spelled `open'` because `open` is a Lean keyword. -/
structure OpenRange where
  open' : String
  closes : String
deriving Repr, DecidableEq

/-- `OpenRangePerDay` records. -/
structure OpenRangePerDay where
  atType : String
  dayOfWeek : String
  openRange : List OpenRange
deriving Repr, DecidableEq

/-- The errors the service can raise.  The source throws plain `Error`s;
these constructors correspond one-to-one to its distinct message templates
(and to the spec's taxonomy): `invalidTimeRange` = "Invalid time range on …",
`invalidOpens` = "Invalid opening time on …: opens at 24:00",
`invalidClosingTime` = "Invalid closing time on …", `overlapError` =
"Invalid time ranges: … overlaps with …", `invalidWeekday` =
"Invalid dayOfWeek", and `invalidTimeValue` = the `RangeError`s thrown by the
timezone collaborator ("Invalid time value" from `format` on an invalid
date, or an unrecognized IANA zone name). -/
inductive OHError where
  | invalidTimeRange (dayOfWeek opens closes : String)
  | invalidOpens (dayOfWeek : String)
  | invalidClosingTime (dayOfWeek closes : String)
  | overlapError (dayOfWeek opens1 closes1 opens2 closes2 : String)
  | invalidWeekday (dayOfWeek : String)
  | invalidTimeValue (value : String)
deriving Repr, DecidableEq

deriving instance DecidableEq for Except

/-- Modelled from the spec: the IANA timezone collaborator (`date-fns-tz`,
external to this repository).  A timezone database maps recognized zone
names to a fixed offset east of UTC in minutes; `none` means the collaborator
raises on that name.  The spec's conversion properties are stated for fixed
zones with no DST transition among the reference instants, which this model
captures exactly. -/
def Tzdb := String → Option Int

/-- The day list of `adjustDayOfWeek`/`getOpenRangePerDay` (Monday first). -/
def sevenDays : List String :=
  ["Monday", "Tuesday", "Wednesday", "Thursday", "Friday", "Saturday", "Sunday"]

/-- `convertDayStringToNumber` (1 = Monday .. 7 = Sunday); `none` models the
source's `Invalid dayOfWeek` throw. -/
def convertDayStringToNumber? (day : String) : Option Nat :=
  if day = "Monday" then some 1
  else if day = "Tuesday" then some 2
  else if day = "Wednesday" then some 3
  else if day = "Thursday" then some 4
  else if day = "Friday" then some 5
  else if day = "Saturday" then some 6
  else if day = "Sunday" then some 7
  else none

/-- `days.indexOf(dayOfWeek)` inside `adjustDayOfWeek` (−1 when absent). -/
def indexOfDay (day : String) : Int :=
  if day = "Monday" then 0
  else if day = "Tuesday" then 1
  else if day = "Wednesday" then 2
  else if day = "Thursday" then 3
  else if day = "Friday" then 4
  else if day = "Saturday" then 5
  else if day = "Sunday" then 6
  else -1

/-- `adjustDayOfWeek` from the source: shift a weekday name by a signed day
count, wrapping modulo 7.  JavaScript `%` is truncating remainder
(`Int.tmod`), and the source adds 7 afterwards when the result is
negative. -/
def adjustDayOfWeek (dayOfWeek : String) (dayChange : Int) : String :=
  let currentIndex := indexOfDay dayOfWeek
  let newIndex := (currentIndex + dayChange).tmod 7
  let newIndex' := if newIndex < 0 then newIndex + 7 else newIndex
  sevenDays.getD newIndex'.toNat ""

/-- Character-list test that `pat` is a leading segment of `s`
(used to model `String.prototype.startsWith`). -/
def startsWithList : List Char → List Char → Bool
  | [], _ => true
  | _ :: _, [] => false
  | p :: ps, c :: cs => p = c && startsWithList ps cs

/-- `normalizeDayOfWeek` from the source: strip a `https://schema.org/` URI
down to its last path segment (`day.split('/').pop() || day`; an empty last
segment is falsy in JavaScript, so it falls back to `day`). -/
def normalizeDayOfWeek (day : String) : String :=
  if startsWithList "https://schema.org/".toList day.toList then
    match (splitOnChar '/' day).getLast? with
    | some piece => if piece = [] then day else piece.asString
    | none => day
  else day

/-- `normalizeAndSplitDays` from the source.  The TypeScript type declares
`dayOfWeek : string`, and all claims concern single-day entries, so only the
singleton branch of the runtime `Array.isArray` test is modelled; each
entry's weekday is normalized. -/
def normalizeAndSplitDays (hours : List OpeningHoursSpecification) :
    List OpeningHoursSpecification :=
  hours.map fun spec => { spec with dayOfWeek := normalizeDayOfWeek spec.dayOfWeek }

/-- `preprocessOpeningHours` from the source: normalize the weekday tokens,
then fail with `InvalidTimeRange` on any entry whose `closes` is before its
`opens` (minute comparison) or literally equal to its `opens` (string
comparison). -/
def preprocessOpeningHours (hours : List OpeningHoursSpecification) :
    Except OHError (List OpeningHoursSpecification) := do
  let normalizedHours := normalizeAndSplitDays hours
  normalizedHours.mapM fun spec =>
    if timeIsBefore spec.closes spec.opens || spec.closes == spec.opens then
      Except.error (.invalidTimeRange spec.dayOfWeek spec.opens spec.closes)
    else
      pure spec

/-- `convertTimeWithDayChange` from the source, with the date/timezone
collaborator modelled from the spec (fixed-offset zones, reference-week
anchoring, signed day offset).  Error order follows the source: the weekday
lookup throws first, then `fromZonedTime`/`toZonedTime` raise on an
unrecognized zone, and finally `format` raises `Invalid time value` on the
invalid date produced by a `NaN` time component.  `setHours(hours % 24,
minutes)` keeps the hour modulo 24 and lets an oversized minute count carry
into the date, so the wall-clock anchor is `(hours % 24) * 60 + minutes`;
the signed day offset is the calendar-day carry of the shifted minute value,
and the `24:00` sentinel gets one extra day added, as in the source. -/
def convertTimeWithDayChange (tzdb : Tzdb) (time dayOfWeek fromTimezone toTimezone : String) :
    Except OHError (String × Int) := do
  let _dayIndex ←
    match convertDayStringToNumber? dayOfWeek with
    | some n => pure n
    | none => Except.error (.invalidWeekday dayOfWeek)
  let offsetFrom ←
    match tzdb fromTimezone with
    | some o => pure o
    | none => Except.error (.invalidTimeValue fromTimezone)
  let offsetTo ←
    match tzdb toTimezone with
    | some o => pure o
    | none => Except.error (.invalidTimeValue toTimezone)
  match parseTimeParts time with
  | none => Except.error (.invalidTimeValue time)
  | some (hours, minutes) =>
    let wall : Int := ((hours % 24 : Nat) : Int) * 60 + (minutes : Int)
    let total : Int := wall + (offsetTo - offsetFrom)
    let convertedTime := formatHm (total % 1440).toNat
    let dayDifference := total / 1440
    let dayDifference := if time == "24:00" then dayDifference + 1 else dayDifference
    pure (convertedTime, dayDifference)

/-- `convertAndSplitEntry` from the source: convert both endpoints, re-anchor
each endpoint's weekday, and either emit a single entry or split at the day
boundary, dropping degenerate pieces. -/
def convertAndSplitEntry (tzdb : Tzdb) (spec : OpeningHoursSpecification)
    (fromTimezone toTimezone : String) : Except OHError (List OpeningHoursSpecification) := do
  let opensConversion ←
    convertTimeWithDayChange tzdb spec.opens spec.dayOfWeek fromTimezone toTimezone
  let closesConversion ←
    convertTimeWithDayChange tzdb spec.closes spec.dayOfWeek fromTimezone toTimezone
  let opensDayOfWeek := adjustDayOfWeek spec.dayOfWeek opensConversion.2
  let closesDayOfWeek := adjustDayOfWeek spec.dayOfWeek closesConversion.2
  if opensDayOfWeek = closesDayOfWeek then
    pure [{ atType := "OpeningHoursSpecification", dayOfWeek := opensDayOfWeek,
            opens := opensConversion.1, closes := closesConversion.1 }]
  else
    let firstEntry : OpeningHoursSpecification :=
      { atType := "OpeningHoursSpecification", dayOfWeek := opensDayOfWeek,
        opens := opensConversion.1, closes := "24:00" }
    let secondEntry : OpeningHoursSpecification :=
      { atType := "OpeningHoursSpecification", dayOfWeek := closesDayOfWeek,
        opens := "00:00", closes := closesConversion.1 }
    if opensConversion.1 ≠ "24:00" ∧ closesConversion.1 ≠ "00:00" then
      pure [firstEntry, secondEntry]
    else if opensConversion.1 = "24:00" ∧ closesConversion.1 = "00:00" then
      pure []
    else if opensConversion.1 = "24:00" then
      pure [secondEntry]
    else
      pure [firstEntry]

/-- `compareOpeningHours` from the source: weekday number first, then the
`opens` minute value.  The source comparator throws on an invalid weekday;
that throw is modelled by the validity pre-check in `sortOpeningHours`, so
here an invalid weekday falls back to 0.  A `NaN` minute difference is
treated as 0, exactly as the ECMAScript sort algorithm treats a `NaN`
comparator result (no such time ever reaches a sort call; see
`canonicalInvB`). -/
def compareOpeningHours (a b : OpeningHoursSpecification) : Int :=
  let dayA := ((convertDayStringToNumber? a.dayOfWeek).getD 0 : Int)
  let dayB := ((convertDayStringToNumber? b.dayOfWeek).getD 0 : Int)
  if dayA ≠ dayB then dayA - dayB
  else
    match convertTimeToMinutes a.opens, convertTimeToMinutes b.opens with
    | some x, some y => x - y
    | _, _ => 0

/-- Stable insertion of one element into a sorted list: skip exactly the
elements strictly smaller under the comparator, so that ties keep their
original relative order. -/
def insertSortedSpec (x : OpeningHoursSpecification) :
    List OpeningHoursSpecification → List OpeningHoursSpecification
  | [] => [x]
  | y :: ys =>
    if compareOpeningHours y x < 0 then y :: insertSortedSpec x ys
    else x :: y :: ys

/-- Stable sort by `compareOpeningHours`.  `Array.prototype.sort` is required
to be stable, and on the total sign-antisymmetric comparators used here every
stable sort produces the same output, so a stable insertion sort is a
faithful model. -/
def sortBySpec : List OpeningHoursSpecification → List OpeningHoursSpecification
  | [] => []
  | x :: xs => insertSortedSpec x (sortBySpec xs)

/-- `hours.sort(compareOpeningHours)`: for two or more elements the
comparator runs and throws on an invalid weekday; a list of at most one
element is never compared (the source's comparator is only invoked on
element pairs). -/
def sortOpeningHours (hours : List OpeningHoursSpecification) :
    Except OHError (List OpeningHoursSpecification) :=
  if hours.length ≤ 1 then pure hours
  else
    match hours.find? (fun s => (convertDayStringToNumber? s.dayOfWeek).isNone) with
    | some bad => Except.error (.invalidWeekday bad.dayOfWeek)
    | none => pure (sortBySpec hours)

/-- The while-loop body of `combineAdjacentRanges`: `currentRange` is the
range being accumulated, the list is what follows it.  While the next range
is on the same day and adjacent, it is absorbed (the closing time never
shrinking); otherwise the accumulated range is emitted and scanning restarts
at the next range. -/
def combineAdjacentRangesGo (currentRange : OpeningHoursSpecification) :
    List OpeningHoursSpecification → List OpeningHoursSpecification
  | [] => [currentRange]
  | nextRange :: rest =>
    if currentRange.dayOfWeek == nextRange.dayOfWeek &&
        areTimesAdjacent currentRange.closes nextRange.opens then
      let updatedClosingTime :=
        if timeIsBefore nextRange.closes currentRange.closes then currentRange.closes
        else nextRange.closes
      combineAdjacentRangesGo { currentRange with closes := updatedClosingTime } rest
    else
      currentRange :: combineAdjacentRangesGo nextRange rest

/-- `combineAdjacentRanges` from the source: merge consecutive same-day
ranges whose boundary times are within one minute of each other, never
letting the merged closing time shrink. -/
def combineAdjacentRanges : List OpeningHoursSpecification → List OpeningHoursSpecification
  | [] => []
  | currentRange :: rest => combineAdjacentRangesGo currentRange rest

/-- The per-element (and next-neighbour) checks of `checkIntegrity`, in the
source's order. -/
def checkIntegrityStep (current : OpeningHoursSpecification)
    (next? : Option OpeningHoursSpecification) : Except OHError Unit := do
  let opensTime := convertTimeToMinutes current.opens
  let closesTime := convertTimeToMinutes current.closes
  if current.opens == "24:00" then
    Except.error (.invalidOpens current.dayOfWeek)
  else if optLe closesTime opensTime then
    Except.error (.invalidTimeRange current.dayOfWeek current.opens current.closes)
  else if optLt (some 1440) closesTime then
    Except.error (.invalidClosingTime current.dayOfWeek current.closes)
  else
    match next? with
    | some next =>
      if current.dayOfWeek == next.dayOfWeek then
        if optLt (convertTimeToMinutes next.opens) closesTime then
          Except.error (.overlapError current.dayOfWeek current.opens current.closes
            next.opens next.closes)
        else pure ()
      else pure ()
    | none => pure ()

/-- `checkIntegrity` from the source: walk the list, checking each entry and
each consecutive pair. -/
def checkIntegrity : List OpeningHoursSpecification → Except OHError Unit
  | [] => pure ()
  | current :: rest => do
    checkIntegrityStep current rest.head?
    checkIntegrity rest

/-- `combineAndCheckIntegrity` from the source: sort, merge adjacent ranges,
check integrity, return the merged list. -/
def combineAndCheckIntegrity (hours : List OpeningHoursSpecification) :
    Except OHError (List OpeningHoursSpecification) := do
  let sortedHours ← sortOpeningHours hours
  let combinedHours := combineAdjacentRanges sortedHours
  checkIntegrity combinedHours
  pure combinedHours

/-- The `flatMap`-with-errors over `convertAndSplitEntry` used by every
conversion site (entries processed left to right, first error wins). -/
def convertAll (tzdb : Tzdb) (fromTimezone toTimezone : String) :
    List OpeningHoursSpecification → Except OHError (List OpeningHoursSpecification)
  | [] => pure []
  | spec :: rest => do
    let converted ← convertAndSplitEntry tzdb spec fromTimezone toTimezone
    let restConverted ← convertAll tzdb fromTimezone toTimezone rest
    pure (converted ++ restConverted)

/-! ## Schedule store & query facade -/

/-- The mutable state of one `OpeningHoursService` instance: the canonical
interval set, the internal (user) timezone fixed at construction, and the
compact schedule string handed to the external `opening_hours` engine
(which is the engine's entire input, so it stands in for the compiled
engine instance). -/
structure Service where
  openingHours : List OpeningHoursSpecification
  userTimezone : String
  scheduleString : String
deriving Repr, DecidableEq

/-- `convertDayOfWeekToShortForm` from the source (`dayMap[day]` is
`undefined` for an unknown name, which prints as `"undefined"` in the
template literal). -/
def convertDayOfWeekToShortForm (day : String) : String :=
  if day = "Monday" then "Mo"
  else if day = "Tuesday" then "Tu"
  else if day = "Wednesday" then "We"
  else if day = "Thursday" then "Th"
  else if day = "Friday" then "Fr"
  else if day = "Saturday" then "Sa"
  else if day = "Sunday" then "Su"
  else "undefined"

/-- The bucket keys of `getOpenRangePerDay`: the seven fixed weekday keys in
object-literal order, followed by any unknown day names in order of first
appearance (JavaScript object insertion order). -/
def bucketKeys (hours : List OpeningHoursSpecification) : List String :=
  hours.foldl
    (fun keys spec =>
      if keys.contains spec.dayOfWeek then keys else keys ++ [spec.dayOfWeek])
    sevenDays

/-- The grouping step of `getOpenRangePerDay` on an already-converted list:
one record per bucket key, whose `openRange` collects that day's entries in
list order. -/
def getOpenRangePerDayPure (hours : List OpeningHoursSpecification) : List OpenRangePerDay :=
  (bucketKeys hours).map fun day =>
    { atType := "OpenRangePerDay", dayOfWeek := day,
      openRange := (hours.filter (fun spec => spec.dayOfWeek == day)).map
        (fun spec => { open' := spec.opens, closes := spec.closes }) }

/-- `generateOpeningHoursInstance` from the source, reduced to the compact
schedule string it compiles: one clause per bucket of the internal-zone
per-day view. -/
def generateScheduleString (hours : List OpeningHoursSpecification) : String :=
  let hoursString :=
    String.intercalate "; " ((getOpenRangePerDayPure hours).map fun spec =>
      convertDayOfWeekToShortForm spec.dayOfWeek ++ " " ++
        (if spec.openRange.length == 0 then "off"
         else String.intercalate ","
           (spec.openRange.map fun range => range.open' ++ "-" ++ range.closes)))
  if hoursString = "" then "Mo-Su closed" else hoursString

/-- A freshly constructed service with no initial hours: empty canonical
set, the given internal timezone, and the default `'Mo-Su closed'` engine
schedule.  (Construction with initial hours is the composition with
`setOpeningHours`.) -/
def initService (timezone : String) : Service :=
  { openingHours := [], userTimezone := timezone, scheduleString := "Mo-Su closed" }

/-- `setOpeningHours`: preprocess, convert into the internal zone, merge and
validate, and only then atomically replace the canonical set and rebuild the
engine schedule.  The returned state is the receiver's state after the call,
whether it succeeds or throws. -/
def setOpeningHours (tzdb : Tzdb) (s : Service)
    (hours : List OpeningHoursSpecification) (timezone : String) :
    Except OHError Unit × Service :=
  match (do
      let preprocessedHours ← preprocessOpeningHours hours
      let convertedHours ← convertAll tzdb timezone s.userTimezone preprocessedHours
      combineAndCheckIntegrity convertedHours) with
  | .error e => (.error e, s)
  | .ok combinedHours =>
    (.ok (), { s with openingHours := combinedHours,
                      scheduleString := generateScheduleString combinedHours })

/-- `addOpeningHoursBatch`: like `setOpeningHours` but the converted entries
are merged with the existing canonical set before the combined list is
re-validated. -/
def addOpeningHoursBatch (tzdb : Tzdb) (s : Service)
    (openingHours : List OpeningHoursSpecification) (timezone : String) :
    Except OHError Unit × Service :=
  match (do
      let preprocessedEntry ← preprocessOpeningHours openingHours
      let convertedEntries ← convertAll tzdb timezone s.userTimezone preprocessedEntry
      combineAndCheckIntegrity (s.openingHours ++ convertedEntries)) with
  | .error e => (.error e, s)
  | .ok combinedHours =>
    (.ok (), { s with openingHours := combinedHours,
                      scheduleString := generateScheduleString combinedHours })

/-- `addOpeningHour`: a one-entry batch. -/
def addOpeningHour (tzdb : Tzdb) (s : Service)
    (dayOfWeek opens closes timezone : String) : Except OHError Unit × Service :=
  addOpeningHoursBatch tzdb s
    [{ atType := "OpeningHoursSpecification", dayOfWeek := dayOfWeek,
       opens := opens, closes := closes }] timezone

/-- `removeOpeningHoursForDay`: reproject into the caller's zone when it
differs from the internal one, drop the named weekday, re-validate, and set
the result back (interpreted in the caller's zone). -/
def removeOpeningHoursForDay (tzdb : Tzdb) (s : Service)
    (dayOfWeek timezone : String) : Except OHError Unit × Service :=
  match (do
      let openingHours : List OpeningHoursSpecification ←
        if timezone ≠ s.userTimezone then do
          let convertedHours ← convertAll tzdb s.userTimezone timezone s.openingHours
          combineAndCheckIntegrity convertedHours
        else pure s.openingHours
      let updatedHours := openingHours.filter
        (fun (spec : OpeningHoursSpecification) => spec.dayOfWeek != dayOfWeek)
      combineAndCheckIntegrity updatedHours) with
  | .error e => (.error e, s)
  | .ok combinedHours => setOpeningHours tzdb s combinedHours timezone

/-- `exportOpeningHours`: reproject the canonical set into the requested
zone, merge and validate; never touches the stored state. -/
def exportOpeningHours (tzdb : Tzdb) (s : Service) (timezone : String) :
    Except OHError (List OpeningHoursSpecification) × Service :=
  match (do
      let convertedHours ← convertAll tzdb s.userTimezone timezone s.openingHours
      combineAndCheckIntegrity convertedHours) with
  | .error e => (.error e, s)
  | .ok combinedHours => (.ok combinedHours, s)

/-- `getOpenRangePerDay`: reproject when the requested zone differs from the
internal one, then bucket by weekday; never touches the stored state. -/
def getOpenRangePerDay (tzdb : Tzdb) (s : Service) (timezone : String) :
    Except OHError (List OpenRangePerDay) × Service :=
  match (do
      let openingHours ←
        if timezone ≠ s.userTimezone then do
          let convertedHours ← convertAll tzdb s.userTimezone timezone s.openingHours
          combineAndCheckIntegrity convertedHours
        else pure s.openingHours
      pure (getOpenRangePerDayPure openingHours)) with
  | .error e => (.error e, s)
  | .ok ranges => (.ok ranges, s)

/-- `getOpenRangeForDay`: the matching record of `getOpenRangePerDay`, or an
empty record for that day name. -/
def getOpenRangeForDay (tzdb : Tzdb) (s : Service) (dayOfWeek timezone : String) :
    Except OHError OpenRangePerDay × Service :=
  match getOpenRangePerDay tzdb s timezone with
  | (.error e, s') => (.error e, s')
  | (.ok ranges, s') =>
    (.ok ((ranges.find? (fun r => r.dayOfWeek == dayOfWeek)).getD
      { atType := "OpenRangePerDay", dayOfWeek := dayOfWeek, openRange := [] }), s')

/-- `validateOpeningHours`: run preprocessing and the integrity check over
the given list (defaulting to the canonical set at call sites), catch every
error and return a boolean; never touches the stored state and never
throws. -/
def validateOpeningHours (s : Service) (openingHours : List OpeningHoursSpecification) :
    Bool × Service :=
  (match (do
      let preprocessed ← preprocessOpeningHours openingHours
      checkIntegrity preprocessed) with
   | .ok _ => true
   | .error _ => false, s)

/-- `getTotalOpenHours`: sum of `(closes − opens) / 60` over the canonical
set.  The JavaScript number is modelled as an exact rational; a `NaN`
(unparseable stored time) is `none` and propagates through the sum. -/
def getTotalOpenHours (s : Service) : Option ℚ × Service :=
  (s.openingHours.foldl
    (fun total spec => do
      let acc ← total
      let opensMinutes ← convertTimeToMinutes spec.opens
      let closesMinutes ← convertTimeToMinutes spec.closes
      pure (acc + ((closesMinutes : ℚ) - (opensMinutes : ℚ)) / 60))
    (some 0), s)

/-- `getDaysWithoutOpeningHours`: the seven weekday names not present in the
canonical set. -/
def getDaysWithoutOpeningHours (s : Service) : List String × Service :=
  (sevenDays.filter
    (fun day =>
      ! ((s.openingHours.map
            (fun (spec : OpeningHoursSpecification) => spec.dayOfWeek)).contains day)), s)

/-- A one-zone database: only `UTC`, at offset 0. -/
def utcOnly : Tzdb := fun zone => if zone = "UTC" then some 0 else none

/-- A two-zone database: `UTC` at offset 0 and the fixed-offset IANA zone
`Etc/GMT-1` at +60 minutes east, neither with DST. -/
def twoZones : Tzdb := fun zone =>
  if zone = "UTC" then some 0
  else if zone = "Etc/GMT-1" then some 60
  else none

/-! ## Canonical-state invariants -/

/-- Boolean chain: every consecutive pair of the list satisfies `r`. -/
def chainB {α : Type} (r : α → α → Bool) : List α → Bool
  | [] => true
  | [_] => true
  | a :: b :: rest => r a b && chainB r (b :: rest)

/-- The sorting order of `compareOpeningHours`, as a Boolean relation. -/
def specLe (a b : OpeningHoursSpecification) : Bool :=
  decide (compareOpeningHours a b ≤ 0)

/-- `t` is a canonically formatted time string: it parses, its value lies in
`[0, 1440]`, and re-rendering the value gives back `t` (so `t` is `formatHm`
of its value; every time string the pipeline stores has this shape). -/
def validTimeStr (t : String) : Bool :=
  match convertTimeToMinutes t with
  | some v => decide (0 ≤ v) && decide (v ≤ 1440) && (formatHm v.toNat == t)
  | none => false

/-- Entry-level canonical facts that do not mention minute ordering:
the `@type` tag, a recognized weekday, and canonically formatted times. -/
def entryBasicB (e : OpeningHoursSpecification) : Bool :=
  (e.atType == "OpeningHoursSpecification") &&
  (convertDayStringToNumber? e.dayOfWeek).isSome &&
  validTimeStr e.opens && validTimeStr e.closes

/-- Full entry-level canonical facts: additionally `opens < closes` in
minutes and `opens < 1440` (so `opens` is never the `24:00` sentinel). -/
def entryOKB (e : OpeningHoursSpecification) : Bool :=
  entryBasicB e &&
  optLt (convertTimeToMinutes e.opens) (convertTimeToMinutes e.closes) &&
  optLt (convertTimeToMinutes e.opens) (some 1440)

/-- Consecutive-pair canonical fact: entries on the same weekday are
separated by a gap of at least two minutes (the output shape of
`combineAdjacentRanges` followed by a successful `checkIntegrity`). -/
def gapOKB (a b : OpeningHoursSpecification) : Bool :=
  (a.dayOfWeek != b.dayOfWeek) ||
  (match convertTimeToMinutes a.closes, convertTimeToMinutes b.opens with
   | some c, some o => decide (c + 2 ≤ o)
   | _, _ => false)

/-- The canonical-set invariant: every entry is canonical, the list is
sorted under `compareOpeningHours`, and same-day neighbours keep a two-minute
gap. -/
def canonicalInvB (l : List OpeningHoursSpecification) : Bool :=
  l.all entryOKB && chainB specLe l && chainB gapOKB l

/-- State-level invariant: the canonical set satisfies `canonicalInvB`, and
whenever it is non-empty the internal timezone is a recognized zone (the
conversions that produced the entries resolved it). -/
def stateInvB (tzdb : Tzdb) (s : Service) : Bool :=
  canonicalInvB s.openingHours &&
  (s.openingHours.isEmpty || (tzdb s.userTimezone).isSome)

/-- The states a service instance can actually be in: freshly constructed,
or the successful outcome of one of the four mutating operations on a
reachable state (the source constructor with initial hours is
`setOpeningHours` on the fresh state). -/
inductive Reachable (tzdb : Tzdb) : Service → Prop where
  | init (timezone : String) : Reachable tzdb (initService timezone)
  | set {s s' : Service} {hours : List OpeningHoursSpecification} {timezone : String}
      {u : Unit} (hs : Reachable tzdb s)
      (h : setOpeningHours tzdb s hours timezone = (.ok u, s')) : Reachable tzdb s'
  | addBatch {s s' : Service} {hours : List OpeningHoursSpecification} {timezone : String}
      {u : Unit} (hs : Reachable tzdb s)
      (h : addOpeningHoursBatch tzdb s hours timezone = (.ok u, s')) : Reachable tzdb s'
  | add {s s' : Service} {dayOfWeek opens closes timezone : String}
      {u : Unit} (hs : Reachable tzdb s)
      (h : addOpeningHour tzdb s dayOfWeek opens closes timezone = (.ok u, s')) :
      Reachable tzdb s'
  | remove {s s' : Service} {dayOfWeek timezone : String}
      {u : Unit} (hs : Reachable tzdb s)
      (h : removeOpeningHoursForDay tzdb s dayOfWeek timezone = (.ok u, s')) :
      Reachable tzdb s'

/-! ## Time-string and day lemmas -/

theorem validTimeStr_formatHm (v : Nat) (hv : v ≤ 1440) :
    validTimeStr (formatHm v) = true := by
  unfold validTimeStr
  rw [convertTimeToMinutes_formatHm v hv]
  simpa using hv

theorem validTimeStr_elim {t : String} (h : validTimeStr t = true) :
    ∃ v : Nat, v ≤ 1440 ∧ t = formatHm v ∧ convertTimeToMinutes t = some (v : Int) := by
  unfold validTimeStr at h
  rcases hm : convertTimeToMinutes t with _ | v
  · rw [hm] at h; exact absurd h (by simp)
  · rw [hm] at h
    simp only [Bool.and_eq_true, decide_eq_true_eq, beq_iff_eq] at h
    obtain ⟨⟨h0, h1440⟩, hfmt⟩ := h
    refine ⟨v.toNat, by omega, hfmt.symm, ?_⟩
    congr 1
    omega

/-- `formatHm` values are recovered uniquely: two formats with values in
range are equal only when the values are. -/
theorem formatHm_inj {v w : Nat} (hv : v ≤ 1440) (hw : w ≤ 1440)
    (h : formatHm v = formatHm w) : v = w := by
  have h1 := convertTimeToMinutes_formatHm v hv
  have h2 := convertTimeToMinutes_formatHm w hw
  rw [h, h2] at h1
  have : (w : Int) = v := by
    simpa using h1
  omega


/-! ## Sorting lemmas -/

@[simp] theorem chainB_nil {α : Type} (r : α → α → Bool) : chainB r [] = true := rfl

@[simp] theorem chainB_singleton {α : Type} (r : α → α → Bool) (a : α) :
    chainB r [a] = true := rfl

@[simp] theorem chainB_cons_cons {α : Type} (r : α → α → Bool) (a b : α) (l : List α) :
    chainB r (a :: b :: l) = (r a b && chainB r (b :: l)) := rfl

theorem compareOpeningHours_antisymm (a b : OpeningHoursSpecification) :
    compareOpeningHours a b = -compareOpeningHours b a := by
  simp only [compareOpeningHours]
  rcases hx : convertTimeToMinutes a.opens with _ | x <;>
    rcases hy : convertTimeToMinutes b.opens with _ | y <;>
      split_ifs with h1 h2 <;> simp_all

theorem specLe_of_not_lt {a b : OpeningHoursSpecification}
    (h : ¬ compareOpeningHours a b < 0) : specLe b a = true := by
  unfold specLe
  rw [compareOpeningHours_antisymm b a]
  simp only [decide_eq_true_eq]
  omega

theorem specLe_of_lt {a b : OpeningHoursSpecification}
    (h : compareOpeningHours a b < 0) : specLe a b = true := by
  unfold specLe
  simp only [decide_eq_true_eq]
  omega

theorem insertSortedSpec_perm (x : OpeningHoursSpecification)
    (l : List OpeningHoursSpecification) : (insertSortedSpec x l).Perm (x :: l) := by
  induction l with
  | nil => simp [insertSortedSpec]
  | cons y ys ih =>
    unfold insertSortedSpec
    split
    · exact List.Perm.trans (ih.cons y) (List.Perm.swap x y ys)
    · exact List.Perm.refl _

theorem sortBySpec_perm (l : List OpeningHoursSpecification) : (sortBySpec l).Perm l := by
  induction l with
  | nil => simp [sortBySpec]
  | cons x xs ih =>
    unfold sortBySpec
    exact List.Perm.trans (insertSortedSpec_perm x (sortBySpec xs)) (ih.cons x)

theorem insertSortedSpec_chain (x : OpeningHoursSpecification)
    (l : List OpeningHoursSpecification) (h : chainB specLe l = true) :
    chainB specLe (insertSortedSpec x l) = true := by
  induction l with
  | nil => simp [insertSortedSpec]
  | cons y ys ih =>
    unfold insertSortedSpec
    split
    · rename_i hc
      have hys : chainB specLe ys = true := by
        cases ys with
        | nil => simp
        | cons z zs => simp only [chainB_cons_cons, Bool.and_eq_true] at h; exact h.2
      have htail := ih hys
      cases ys with
      | nil =>
        simp [insertSortedSpec, specLe_of_lt hc]
      | cons z zs =>
        simp only [chainB_cons_cons, Bool.and_eq_true] at h
        by_cases hzx : compareOpeningHours z x < 0
        · simp only [insertSortedSpec, if_pos hzx] at htail ⊢
          simp only [chainB_cons_cons, Bool.and_eq_true]
          exact ⟨h.1, htail⟩
        · simp only [insertSortedSpec, if_neg hzx] at htail ⊢
          simp only [chainB_cons_cons, Bool.and_eq_true] at htail ⊢
          exact ⟨specLe_of_lt hc, htail⟩
    · rename_i hc
      simp only [chainB_cons_cons, Bool.and_eq_true]
      exact ⟨specLe_of_not_lt hc, h⟩

theorem sortBySpec_chain (l : List OpeningHoursSpecification) :
    chainB specLe (sortBySpec l) = true := by
  induction l with
  | nil => simp [sortBySpec]
  | cons x xs ih => exact insertSortedSpec_chain x (sortBySpec xs) ih

theorem sortBySpec_eq_self (l : List OpeningHoursSpecification)
    (h : chainB specLe l = true) : sortBySpec l = l := by
  induction l with
  | nil => rfl
  | cons x xs ih =>
    have hxs : chainB specLe xs = true := by
      cases xs with
      | nil => simp
      | cons y ys => simp only [chainB_cons_cons, Bool.and_eq_true] at h; exact h.2
    unfold sortBySpec
    rw [ih hxs]
    cases xs with
    | nil => rfl
    | cons y ys =>
      simp only [chainB_cons_cons, Bool.and_eq_true] at h
      have hxy : ¬ compareOpeningHours y x < 0 := by
        have := h.1
        unfold specLe at this
        rw [compareOpeningHours_antisymm x y] at this
        simp only [decide_eq_true_eq] at this
        omega
      simp [insertSortedSpec, hxy]

/-! ## Merge (combineAdjacentRanges) lemmas -/

theorem combineAdjacentRangesGo_ne_nil (c : OpeningHoursSpecification)
    (l : List OpeningHoursSpecification) : combineAdjacentRangesGo c l ≠ [] := by
  induction l generalizing c with
  | nil => simp [combineAdjacentRangesGo]
  | cons n rest ih =>
    unfold combineAdjacentRangesGo
    split
    · exact ih _
    · simp

theorem combineAdjacentRanges_eq_nil_iff (l : List OpeningHoursSpecification) :
    combineAdjacentRanges l = [] ↔ l = [] := by
  cases l with
  | nil => simp [combineAdjacentRanges]
  | cons c rest =>
    simp only [combineAdjacentRanges]
    constructor
    · intro h
      exact absurd h (combineAdjacentRangesGo_ne_nil c rest)
    · intro h
      exact absurd h (by simp)

/-- Every merged entry keeps the `@type`, weekday and opening time of some
input entry, and takes its closing time from some (possibly different) input
entry. -/
theorem combineAdjacentRangesGo_mem_fields (c : OpeningHoursSpecification)
    (l : List OpeningHoursSpecification) :
    ∀ y ∈ combineAdjacentRangesGo c l,
      (∃ x ∈ c :: l, y.atType = x.atType ∧ y.dayOfWeek = x.dayOfWeek ∧ y.opens = x.opens) ∧
      (∃ z ∈ c :: l, y.closes = z.closes) := by
  induction l generalizing c with
  | nil =>
    intro y hy
    simp only [combineAdjacentRangesGo, List.mem_singleton] at hy
    subst hy
    exact ⟨⟨y, by simp, rfl, rfl, rfl⟩, ⟨y, by simp, rfl⟩⟩
  | cons n rest ih =>
    intro y hy
    unfold combineAdjacentRangesGo at hy
    split at hy
    · obtain ⟨⟨x, hx, h1, h2, h3⟩, ⟨z, hz, h4⟩⟩ := ih _ y hy
      constructor
      · rcases List.mem_cons.mp hx with hx' | hx'
        · subst hx'
          exact ⟨c, by simp, h1, h2, h3⟩
        · exact ⟨x, by simp [hx'], h1, h2, h3⟩
      · rcases List.mem_cons.mp hz with hz' | hz'
        · subst hz'
          by_cases hb : timeIsBefore n.closes c.closes
          · exact ⟨c, by simp, by simpa [hb] using h4⟩
          · exact ⟨n, by simp, by simpa [hb] using h4⟩
        · exact ⟨z, by simp [hz'], h4⟩
    · rcases List.mem_cons.mp hy with hy' | hy'
      · subst hy'
        exact ⟨⟨y, by simp, rfl, rfl, rfl⟩, ⟨y, by simp, rfl⟩⟩
      · obtain ⟨⟨x, hx, h1, h2, h3⟩, ⟨z, hz, h4⟩⟩ := ih _ y hy'
        exact ⟨⟨x, by simp [List.mem_cons.mp hx], h1, h2, h3⟩,
               ⟨z, by simp [List.mem_cons.mp hz], h4⟩⟩

/-- The head of a merged list keeps the first range's `@type`, weekday and
opening time. -/
theorem combineAdjacentRangesGo_head (c : OpeningHoursSpecification)
    (l : List OpeningHoursSpecification) :
    ∃ c' rest', combineAdjacentRangesGo c l = c' :: rest' ∧
      c'.atType = c.atType ∧ c'.dayOfWeek = c.dayOfWeek ∧ c'.opens = c.opens := by
  induction l generalizing c with
  | nil => exact ⟨c, [], rfl, rfl, rfl, rfl⟩
  | cons n rest ih =>
    unfold combineAdjacentRangesGo
    split
    · obtain ⟨c', rest', heq, h1, h2, h3⟩ := ih _
      exact ⟨c', rest', heq, h1, h2, h3⟩
    · exact ⟨c, _, rfl, rfl, rfl, rfl⟩

/-- Key facts needed for comparator transitivity: the weekday resolves and
the opening time parses. -/
def keyOKB (e : OpeningHoursSpecification) : Bool :=
  (convertDayStringToNumber? e.dayOfWeek).isSome &&
  (convertTimeToMinutes e.opens).isSome

theorem compareOpeningHours_set_closes_left (a b : OpeningHoursSpecification) (u : String) :
    compareOpeningHours { a with closes := u } b = compareOpeningHours a b := rfl

theorem specLe_set_closes_left (a b : OpeningHoursSpecification) (u : String) :
    specLe { a with closes := u } b = specLe a b := rfl

/-- `specLe` depends only on the weekday and opening time of its second
argument. -/
theorem specLe_congr_right {b b' : OpeningHoursSpecification}
    (a : OpeningHoursSpecification) (hd : b.dayOfWeek = b'.dayOfWeek)
    (ho : b.opens = b'.opens) : specLe a b = specLe a b' := by
  unfold specLe compareOpeningHours
  rw [hd, ho]

theorem specLe_trans {a b c : OpeningHoursSpecification}
    (ha : keyOKB a = true) (hb : keyOKB b = true) (hc : keyOKB c = true)
    (h1 : specLe a b = true) (h2 : specLe b c = true) : specLe a c = true := by
  unfold keyOKB at ha hb hc
  simp only [Bool.and_eq_true, Option.isSome_iff_exists] at ha hb hc
  obtain ⟨⟨da, hda⟩, ma, hma⟩ := ha
  obtain ⟨⟨db, hdb⟩, mb, hmb⟩ := hb
  obtain ⟨⟨dc, hdc⟩, mc, hmc⟩ := hc
  unfold specLe compareOpeningHours at h1 h2 ⊢
  rw [hda, hdb, hma, hmb] at h1
  rw [hdb, hdc, hmb, hmc] at h2
  rw [hda, hdc, hma, hmc]
  simp only [Option.getD_some, decide_eq_true_eq] at h1 h2 ⊢
  split_ifs at h1 h2 ⊢ <;> omega

/-- The pair condition on which `combineAdjacentRangesGo` refuses to merge:
different days, or a boundary gap of more than one minute (or an
unparseable boundary time). -/
def noAdjB (a b : OpeningHoursSpecification) : Bool :=
  !(a.dayOfWeek == b.dayOfWeek && areTimesAdjacent a.closes b.opens)

theorem noAdjB_congr_right {b b' : OpeningHoursSpecification}
    (a : OpeningHoursSpecification) (hd : b.dayOfWeek = b'.dayOfWeek)
    (ho : b.opens = b'.opens) : noAdjB a b = noAdjB a b' := by
  unfold noAdjB areTimesAdjacent
  rw [hd, ho]

/-- Merging preserves sortedness: the surviving entries keep their weekday
and opening keys, in order. -/
theorem combineAdjacentRangesGo_chain (c : OpeningHoursSpecification)
    (l : List OpeningHoursSpecification)
    (hkeys : (c :: l).all keyOKB = true)
    (hchain : chainB specLe (c :: l) = true) :
    chainB specLe (combineAdjacentRangesGo c l) = true := by
  induction l generalizing c with
  | nil => simp [combineAdjacentRangesGo]
  | cons n rest ih =>
    simp only [List.all_cons, Bool.and_eq_true] at hkeys
    obtain ⟨hkc, hkn, hkrest⟩ := hkeys
    simp only [chainB_cons_cons, Bool.and_eq_true] at hchain
    obtain ⟨hcn, hchain'⟩ := hchain
    unfold combineAdjacentRangesGo
    split
    · -- merged: continue with the widened current range
      apply ih
      · simp only [List.all_cons, Bool.and_eq_true]
        refine ⟨?_, hkrest⟩
        exact hkc
      · -- chain (c' :: rest) where c' differs from c only in `closes`
        cases rest with
        | nil => simp
        | cons r rs =>
          simp only [chainB_cons_cons, Bool.and_eq_true] at hchain' ⊢
          refine ⟨?_, hchain'.2⟩
          rw [specLe_set_closes_left]
          have hkr : keyOKB r = true := by
            simp only [List.all_cons, Bool.and_eq_true] at hkrest
            exact hkrest.1
          exact specLe_trans hkc hkn hkr hcn hchain'.1
    · -- not merged: emit `c`, continue with `n`
      obtain ⟨n', rest', heq, h1, h2, h3⟩ := combineAdjacentRangesGo_head n rest
      rw [heq]
      simp only [chainB_cons_cons, Bool.and_eq_true]
      constructor
      · rw [← specLe_congr_right c h2.symm h3.symm]
        exact hcn
      · rw [← heq]
        apply ih
        · simp only [List.all_cons, Bool.and_eq_true]
          exact ⟨hkn, hkrest⟩
        · exact hchain'

/-- Merged output never contains a same-day adjacent consecutive pair. -/
theorem combineAdjacentRangesGo_gapChain (c : OpeningHoursSpecification)
    (l : List OpeningHoursSpecification) :
    chainB noAdjB (combineAdjacentRangesGo c l) = true := by
  induction l generalizing c with
  | nil => simp [combineAdjacentRangesGo]
  | cons n rest ih =>
    unfold combineAdjacentRangesGo
    split
    · exact ih _
    · rename_i hcond
      obtain ⟨n', rest', heq, h1, h2, h3⟩ := combineAdjacentRangesGo_head n rest
      rw [heq]
      simp only [chainB_cons_cons, Bool.and_eq_true]
      constructor
      · rw [← noAdjB_congr_right c h2.symm h3.symm]
        unfold noAdjB
        simp only [Bool.not_eq_true']
        exact Bool.not_eq_true _ ▸ (by simpa using hcond)
      · rw [← heq]
        exact ih _

/-- When no consecutive pair is mergeable, merging is the identity. -/
theorem combineAdjacentRangesGo_eq_self (c : OpeningHoursSpecification)
    (l : List OpeningHoursSpecification)
    (h : chainB noAdjB (c :: l) = true) :
    combineAdjacentRangesGo c l = c :: l := by
  induction l generalizing c with
  | nil => rfl
  | cons n rest ih =>
    simp only [chainB_cons_cons, Bool.and_eq_true] at h
    obtain ⟨hcn, h'⟩ := h
    unfold combineAdjacentRangesGo
    rw [if_neg]
    · rw [ih n h']
    · unfold noAdjB at hcn
      simp only [Bool.not_eq_true'] at hcn
      simp [hcn]

/-! ## Integrity-check lemmas -/

theorem checkIntegrityStep_ok {c : OpeningHoursSpecification}
    {next? : Option OpeningHoursSpecification}
    (h : checkIntegrityStep c next? = .ok ()) :
    (c.opens == "24:00") = false ∧
    optLe (convertTimeToMinutes c.closes) (convertTimeToMinutes c.opens) = false ∧
    optLt (some 1440) (convertTimeToMinutes c.closes) = false ∧
    (∀ n, next? = some n → (c.dayOfWeek == n.dayOfWeek) = true →
      optLt (convertTimeToMinutes n.opens) (convertTimeToMinutes c.closes) = false) := by
  simp only [checkIntegrityStep] at h
  by_cases h1 : (c.opens == "24:00") = true
  · rw [if_pos h1] at h
    exact absurd h (by simp)
  · rw [if_neg h1] at h
    by_cases h2 : optLe (convertTimeToMinutes c.closes) (convertTimeToMinutes c.opens) = true
    · rw [if_pos h2] at h
      exact absurd h (by simp)
    · rw [if_neg h2] at h
      by_cases h3 : optLt (some 1440) (convertTimeToMinutes c.closes) = true
      · rw [if_pos h3] at h
        exact absurd h (by simp)
      · rw [if_neg h3] at h
        refine ⟨by simpa using h1, by simpa using h2, by simpa using h3, ?_⟩
        intro n hn hday
        subst hn
        by_cases h4 :
            optLt (convertTimeToMinutes n.opens) (convertTimeToMinutes c.closes) = true
        · simp [hday, h4] at h
        · simpa using h4

theorem checkIntegrity_cons {c : OpeningHoursSpecification}
    {rest : List OpeningHoursSpecification}
    (h : checkIntegrity (c :: rest) = .ok ()) :
    checkIntegrityStep c rest.head? = .ok () ∧ checkIntegrity rest = .ok () := by
  unfold checkIntegrity at h
  cases hstep : checkIntegrityStep c rest.head? with
  | error e =>
    rw [hstep] at h
    exact absurd h (by simp [Bind.bind, Except.bind])
  | ok u =>
    cases u
    rw [hstep] at h
    exact ⟨rfl, by simpa [Bind.bind, Except.bind] using h⟩

/-- The integrity facts of a successfully checked list: no entry opens at
`24:00`, every entry closes strictly after it opens and not after 1440, and
consecutive same-day entries do not overlap. -/
def intPairOKB (a b : OpeningHoursSpecification) : Bool :=
  (a.dayOfWeek != b.dayOfWeek) ||
  !(optLt (convertTimeToMinutes b.opens) (convertTimeToMinutes a.closes))

theorem checkIntegrity_facts : ∀ (l : List OpeningHoursSpecification),
    checkIntegrity l = .ok () →
    (∀ e ∈ l, (e.opens == "24:00") = false ∧
      optLe (convertTimeToMinutes e.closes) (convertTimeToMinutes e.opens) = false ∧
      optLt (some 1440) (convertTimeToMinutes e.closes) = false) ∧
    chainB intPairOKB l = true := by
  intro l
  induction l with
  | nil => intro _; exact ⟨by simp, rfl⟩
  | cons c rest ih =>
    intro h
    obtain ⟨hstep, hrest⟩ := checkIntegrity_cons h
    obtain ⟨hmem, hchain⟩ := ih hrest
    obtain ⟨f1, f2, f3, f4⟩ := checkIntegrityStep_ok hstep
    constructor
    · intro e he
      rcases List.mem_cons.mp he with he' | he'
      · subst he'; exact ⟨f1, f2, f3⟩
      · exact hmem e he'
    · cases rest with
      | nil => simp
      | cons r rs =>
        simp only [chainB_cons_cons, Bool.and_eq_true]
        refine ⟨?_, hchain⟩
        unfold intPairOKB
        by_cases hday : (c.dayOfWeek == r.dayOfWeek) = true
        · have := f4 r (by simp) hday
          simp [this]
        · simp only [bne, Bool.or_eq_true, Bool.not_eq_true']
          left
          simpa using hday

/-! ## Conversion-output lemmas -/

theorem adjustDayOfWeek_valid (d : String) (dc : Int) :
    (convertDayStringToNumber? (adjustDayOfWeek d dc)).isSome = true := by
  simp only [adjustDayOfWeek]
  have hlt := Int.tmod_lt_of_pos (indexOfDay d + dc) (by norm_num : (0:Int) < 7)
  have hgt : -7 < (indexOfDay d + dc).tmod 7 := by
    rcases le_or_lt 0 (indexOfDay d + dc) with h | h
    · have := Int.tmod_nonneg 7 h
      omega
    · have h1 : (0:Int) ≤ -(indexOfDay d + dc) := by omega
      have h2 := Int.tmod_nonneg 7 h1
      have e1 := Int.tmod_add_tdiv (indexOfDay d + dc) 7
      have e2 := Int.tmod_add_tdiv (-(indexOfDay d + dc)) 7
      have e3 : (-(indexOfDay d + dc)).tdiv 7 = -((indexOfDay d + dc).tdiv 7) :=
        Int.neg_tdiv _ 7
      have h3 := Int.tmod_lt_of_pos (-(indexOfDay d + dc)) (by norm_num : (0:Int) < 7)
      omega
  set r := (indexOfDay d + dc).tmod 7 with hrdef
  have hi : (if r < 0 then r + 7 else r).toNat < 7 := by
    split <;> omega
  set i := (if r < 0 then r + 7 else r).toNat with hidef
  interval_cases i <;> decide

/-- Shape of a successful endpoint conversion: the produced time string is a
canonically formatted value below 1440, and the weekday and both zones
resolved. -/
theorem convertTimeWithDayChange_ok {tzdb : Tzdb} {t d z1 z2 : String}
    {res : String × Int} (h : convertTimeWithDayChange tzdb t d z1 z2 = .ok res) :
    (∃ v : Nat, v < 1440 ∧ res.1 = formatHm v) ∧
    (convertDayStringToNumber? d).isSome = true ∧
    (tzdb z1).isSome = true ∧ (tzdb z2).isSome = true := by
  unfold convertTimeWithDayChange at h
  cases hd : convertDayStringToNumber? d with
  | none =>
    rw [hd] at h
    exact absurd h (by simp [Bind.bind, Except.bind, pure, Except.pure])
  | some n =>
  rw [hd] at h
  cases h1 : tzdb z1 with
  | none =>
    rw [h1] at h
    exact absurd h (by simp [Bind.bind, Except.bind, pure, Except.pure])
  | some off1 =>
  rw [h1] at h
  cases h2 : tzdb z2 with
  | none =>
    rw [h2] at h
    exact absurd h (by simp [Bind.bind, Except.bind, pure, Except.pure])
  | some off2 =>
  rw [h2] at h
  cases hp : parseTimeParts t with
  | none =>
    rw [hp] at h
    exact absurd h (by simp [Bind.bind, Except.bind, pure, Except.pure])
  | some hm =>
  rw [hp] at h
  simp only [Bind.bind, Except.bind, pure, Except.pure, Except.ok.injEq] at h
  refine ⟨?_, by simp, by simp, by simp⟩
  refine ⟨((((hm.1 % 24 : Nat) : Int) * 60 + (hm.2 : Int) +
      (off2 - off1)) % 1440).toNat, ?_, ?_⟩
  · omega
  · rw [← h]

theorem exceptBind_ok {ε α β : Type} {x : Except ε α} {f : α → Except ε β} {b : β}
    (h : (x >>= f) = .ok b) : ∃ a, x = .ok a ∧ f a = .ok b := by
  cases x with
  | error e => exact absurd h (by simp [Bind.bind, Except.bind])
  | ok a => exact ⟨a, rfl, by simpa [Bind.bind, Except.bind] using h⟩

theorem validTimeStr_0000 : validTimeStr "00:00" = true := by decide

theorem validTimeStr_2400 : validTimeStr "24:00" = true := by decide

/-- Shape of a successful entry conversion: every produced entry carries the
literal `@type`, a valid weekday and canonically formatted times, and both
zones resolved. -/
theorem convertAndSplitEntry_ok_basic {tzdb : Tzdb} {spec : OpeningHoursSpecification}
    {z1 z2 : String} {out : List OpeningHoursSpecification}
    (h : convertAndSplitEntry tzdb spec z1 z2 = .ok out) :
    (∀ y ∈ out, entryBasicB y = true) ∧
    (tzdb z1).isSome = true ∧ (tzdb z2).isSome = true := by
  unfold convertAndSplitEntry at h
  cases ho : convertTimeWithDayChange tzdb spec.opens spec.dayOfWeek z1 z2 with
  | error e =>
    rw [ho] at h
    exact absurd h (by simp [Bind.bind, Except.bind])
  | ok oc =>
  rw [ho] at h
  cases hc : convertTimeWithDayChange tzdb spec.closes spec.dayOfWeek z1 z2 with
  | error e =>
    rw [hc] at h
    exact absurd h (by simp [Bind.bind, Except.bind, pure, Except.pure])
  | ok cc =>
  rw [hc] at h
  obtain ⟨⟨vo, hvo, hots⟩, _, hz1, hz2⟩ := convertTimeWithDayChange_ok ho
  obtain ⟨⟨vc, hvc, hcts⟩, _, _, _⟩ := convertTimeWithDayChange_ok hc
  refine ⟨?_, hz1, hz2⟩
  have hvalido : validTimeStr oc.1 = true := by
    rw [hots]; exact validTimeStr_formatHm vo (by omega)
  have hvalidc : validTimeStr cc.1 = true := by
    rw [hcts]; exact validTimeStr_formatHm vc (by omega)
  have hdayo := adjustDayOfWeek_valid spec.dayOfWeek oc.2
  have hdayc := adjustDayOfWeek_valid spec.dayOfWeek cc.2
  simp only [Bind.bind, Except.bind, pure, Except.pure] at h
  split_ifs at h <;>
    simp only [Except.ok.injEq] at h <;>
      subst h <;>
        intro y hy <;>
          simp only [List.mem_singleton, List.mem_cons, List.not_mem_nil,
            or_false] at hy
  · subst hy
    simp [entryBasicB, hdayo, hvalido, hvalidc]
  · rcases hy with hy | hy
    · subst hy
      simp [entryBasicB, hdayo, hvalido, validTimeStr_2400]
    · subst hy
      simp [entryBasicB, hdayc, hvalidc, validTimeStr_0000]
  · subst hy
    simp [entryBasicB, hdayc, hvalidc, validTimeStr_0000]
  · subst hy
    simp [entryBasicB, hdayo, hvalido, validTimeStr_2400]

/-- Shape of a successful batch conversion. -/
theorem convertAll_ok_basic {tzdb : Tzdb} {z1 z2 : String}
    {l out : List OpeningHoursSpecification}
    (h : convertAll tzdb z1 z2 l = .ok out) :
    (∀ y ∈ out, entryBasicB y = true) ∧ (out ≠ [] → (tzdb z2).isSome = true) := by
  induction l generalizing out with
  | nil =>
    unfold convertAll at h
    simp only [pure, Except.pure, Except.ok.injEq] at h
    subst h
    exact ⟨by simp, by simp⟩
  | cons spec rest ih =>
    unfold convertAll at h
    obtain ⟨conv, hconv, h2⟩ := exceptBind_ok h
    obtain ⟨restConv, hrest, h3⟩ := exceptBind_ok h2
    simp only [pure, Except.pure, Except.ok.injEq] at h3
    subst h3
    obtain ⟨hmem1, hz1, hz2⟩ := convertAndSplitEntry_ok_basic hconv
    obtain ⟨hmem2, _⟩ := ih hrest
    refine ⟨?_, fun _ => hz2⟩
    intro y hy
    rcases List.mem_append.mp hy with hy' | hy'
    · exact hmem1 y hy'
    · exact hmem2 y hy'

/-! ## Canonical-invariant assembly -/

theorem entryBasicB_iff (e : OpeningHoursSpecification) :
    entryBasicB e = true ↔
      e.atType = "OpeningHoursSpecification" ∧
      (convertDayStringToNumber? e.dayOfWeek).isSome = true ∧
      validTimeStr e.opens = true ∧ validTimeStr e.closes = true := by
  unfold entryBasicB
  simp [and_assoc]

theorem entryBasicB_keyOK {e : OpeningHoursSpecification}
    (h : entryBasicB e = true) : keyOKB e = true := by
  rw [entryBasicB_iff] at h
  obtain ⟨_, hday, hopens, _⟩ := h
  obtain ⟨v, _, _, hconv⟩ := validTimeStr_elim hopens
  unfold keyOKB
  simp [hday, hconv]

theorem chainB_imp {α : Type} {r1 r2 r3 : α → α → Bool} (l : List α)
    (h1 : chainB r1 l = true) (h2 : chainB r2 l = true)
    (himp : ∀ a ∈ l, ∀ b ∈ l, r1 a b = true → r2 a b = true → r3 a b = true) :
    chainB r3 l = true := by
  induction l with
  | nil => rfl
  | cons a tl ih =>
    cases tl with
    | nil => rfl
    | cons b rest =>
      simp only [chainB_cons_cons, Bool.and_eq_true] at h1 h2 ⊢
      exact ⟨himp a (by simp) b (by simp) h1.1 h2.1,
        ih h1.2 h2.2 (fun x hx y hy hr1 hr2 =>
          himp x (by simp [hx]) y (by simp [hy]) hr1 hr2)⟩

/-- A successful `combineAndCheckIntegrity` over entries with canonical
fields produces a list satisfying the full canonical invariant, and is empty
exactly when the input was. -/
theorem combineAndCheckIntegrity_ok {hours out : List OpeningHoursSpecification}
    (hbasic : ∀ e ∈ hours, entryBasicB e = true)
    (h : combineAndCheckIntegrity hours = .ok out) :
    canonicalInvB out = true ∧ (out = [] ↔ hours = []) := by
  unfold combineAndCheckIntegrity at h
  obtain ⟨sorted, hsort, h2⟩ := exceptBind_ok h
  obtain ⟨u, hint, h3⟩ := exceptBind_ok h2
  cases u
  simp only [pure, Except.pure, Except.ok.injEq] at h3
  subst h3
  -- facts about the sorted list
  have hsorted :
      (∀ e ∈ sorted, entryBasicB e = true) ∧ chainB specLe sorted = true ∧
      (sorted = [] ↔ hours = []) := by
    unfold sortOpeningHours at hsort
    split at hsort
    · rename_i hlen
      simp only [pure, Except.pure, Except.ok.injEq] at hsort
      subst hsort
      refine ⟨hbasic, ?_, Iff.rfl⟩
      cases hours with
      | nil => rfl
      | cons a tl =>
        cases tl with
        | nil => rfl
        | cons b rest => simp at hlen
    · split at hsort
      · exact absurd hsort (by simp)
      · simp only [pure, Except.pure, Except.ok.injEq] at hsort
        subst hsort
        have hperm := sortBySpec_perm hours
        refine ⟨fun e he => hbasic e (hperm.mem_iff.mp he), sortBySpec_chain hours, ?_⟩
        constructor
        · intro hnil
          exact List.Perm.eq_nil (hnil ▸ hperm.symm)
        · intro hnil
          subst hnil
          rfl
  obtain ⟨hsmem, hschain, hsnil⟩ := hsorted
  obtain ⟨hintmem, hintchain⟩ := checkIntegrity_facts _ hint
  -- the members of the merged list have canonical fields
  have houtbasic : ∀ y ∈ combineAdjacentRanges sorted, entryBasicB y = true := by
    intro y hy
    cases sorted with
    | nil => simp [combineAdjacentRanges] at hy
    | cons c l =>
      simp only [combineAdjacentRanges] at hy
      obtain ⟨⟨x, hx, e1, e2, e3⟩, ⟨z, hz, e4⟩⟩ := combineAdjacentRangesGo_mem_fields c l y hy
      have hxb := (entryBasicB_iff x).mp (hsmem x hx)
      have hzb := (entryBasicB_iff z).mp (hsmem z hz)
      rw [entryBasicB_iff, e1, e2, e3, e4]
      exact ⟨hxb.1, hxb.2.1, hxb.2.2.1, hzb.2.2.2⟩
  constructor
  · -- the canonical invariant of the output
    unfold canonicalInvB
    simp only [Bool.and_eq_true]
    refine ⟨⟨?_, ?_⟩, ?_⟩
    · -- every entry satisfies entryOKB
      rw [List.all_eq_true]
      intro e he
      have hb := houtbasic e he
      obtain ⟨f1, f2, f3⟩ := hintmem e he
      have hbs := (entryBasicB_iff e).mp hb
      obtain ⟨vo, hvo1440, hvoeq, hvoconv⟩ := validTimeStr_elim hbs.2.2.1
      obtain ⟨vc, hvc1440, hvceq, hvcconv⟩ := validTimeStr_elim hbs.2.2.2
      unfold entryOKB
      rw [hb]
      simp only [Bool.true_and, Bool.and_eq_true]
      rw [hvoconv, hvcconv] at f2 ⊢
      unfold optLe at f2
      unfold optLt
      simp only [decide_eq_false_iff_not, not_le] at f2
      constructor
      · simp only [decide_eq_true_eq]
        omega
      · -- opens < 1440 because opens ≠ "24:00"
        have hne : vo ≠ 1440 := by
          intro hvo
          subst hvo
          rw [hvoeq] at f1
          exact absurd f1 (by decide)
        simp only [decide_eq_true_eq]
        omega
    · -- sortedness survives merging
      cases sorted with
      | nil => simp [combineAdjacentRanges]
      | cons c l =>
        simp only [combineAdjacentRanges]
        exact combineAdjacentRangesGo_chain c l
          (by
            rw [List.all_eq_true]
            intro e he
            exact entryBasicB_keyOK (hsmem e he))
          hschain
    · -- the two-minute gap between same-day neighbours
      have hgapchain : chainB noAdjB (combineAdjacentRanges sorted) = true := by
        cases sorted with
        | nil => simp [combineAdjacentRanges]
        | cons c l =>
          simp only [combineAdjacentRanges]
          exact combineAdjacentRangesGo_gapChain c l
      refine chainB_imp _ hintchain hgapchain ?_
      intro a ha b hb hr1 hr2
      have hab := (entryBasicB_iff a).mp (houtbasic a ha)
      have hbb := (entryBasicB_iff b).mp (houtbasic b hb)
      obtain ⟨vc, hvc1440, hvceq, hvcconv⟩ := validTimeStr_elim hab.2.2.2
      obtain ⟨vo, hvo1440, hvoeq, hvoconv⟩ := validTimeStr_elim hbb.2.2.1
      unfold gapOKB
      unfold intPairOKB at hr1
      unfold noAdjB areTimesAdjacent at hr2
      rw [hvcconv, hvoconv] at hr2 ⊢
      by_cases hday : a.dayOfWeek = b.dayOfWeek
      · simp only [hday, bne_self_eq_false, Bool.false_or] at hr1 ⊢
        rw [hvcconv, hvoconv] at hr1
        unfold optLt at hr1
        simp only [hday, beq_self_eq_true, Bool.true_and, Bool.not_eq_true'] at hr2
        simp only [Bool.not_eq_true', decide_eq_false_iff_not, not_lt] at hr1
        simp only [decide_eq_false_iff_not, not_le] at hr2
        simp only [decide_eq_true_eq]
        omega
      · simp [bne, hday]
  · rw [combineAdjacentRanges_eq_nil_iff]
    exact hsnil

/-! ## Mutator lemmas -/

theorem entryOKB_basic {e : OpeningHoursSpecification} (h : entryOKB e = true) :
    entryBasicB e = true := by
  unfold entryOKB at h
  simp only [Bool.and_eq_true] at h
  exact h.1.1

theorem canonicalInvB_all {l : List OpeningHoursSpecification}
    (h : canonicalInvB l = true) : ∀ e ∈ l, entryOKB e = true := by
  unfold canonicalInvB at h
  simp only [Bool.and_eq_true, List.all_eq_true] at h
  exact fun e he => h.1.1 e he

theorem setOpeningHours_ok {tzdb : Tzdb} {s s' : Service}
    {hours : List OpeningHoursSpecification} {timezone : String} {u : Unit}
    (h : setOpeningHours tzdb s hours timezone = (.ok u, s')) :
    canonicalInvB s'.openingHours = true ∧
    s'.userTimezone = s.userTimezone ∧
    (s'.openingHours ≠ [] → (tzdb s.userTimezone).isSome = true) := by
  unfold setOpeningHours at h
  cases hpipe : (do
      let preprocessedHours ← preprocessOpeningHours hours
      let convertedHours ← convertAll tzdb timezone s.userTimezone preprocessedHours
      combineAndCheckIntegrity convertedHours : Except OHError _) with
  | error e =>
    rw [hpipe] at h
    exact absurd h (by simp)
  | ok combined =>
    rw [hpipe] at h
    simp only [Prod.mk.injEq] at h
    obtain ⟨_, hs'⟩ := h
    obtain ⟨pre, hpre, hrest⟩ := exceptBind_ok hpipe
    obtain ⟨conv, hconv, hcomb⟩ := exceptBind_ok hrest
    obtain ⟨hconvmem, hconvzone⟩ := convertAll_ok_basic hconv
    obtain ⟨hcanon, hnil⟩ := combineAndCheckIntegrity_ok hconvmem hcomb
    subst hs'
    refine ⟨hcanon, rfl, ?_⟩
    intro hne
    exact hconvzone (fun hc => hne (hnil.mpr hc))

theorem addOpeningHoursBatch_ok {tzdb : Tzdb} {s s' : Service}
    {hours : List OpeningHoursSpecification} {timezone : String} {u : Unit}
    (hinv : canonicalInvB s.openingHours = true)
    (hzone : s.openingHours = [] ∨ (tzdb s.userTimezone).isSome = true)
    (h : addOpeningHoursBatch tzdb s hours timezone = (.ok u, s')) :
    canonicalInvB s'.openingHours = true ∧
    s'.userTimezone = s.userTimezone ∧
    (s'.openingHours ≠ [] → (tzdb s.userTimezone).isSome = true) := by
  unfold addOpeningHoursBatch at h
  cases hpipe : (do
      let preprocessedEntry ← preprocessOpeningHours hours
      let convertedEntries ← convertAll tzdb timezone s.userTimezone preprocessedEntry
      combineAndCheckIntegrity (s.openingHours ++ convertedEntries) :
        Except OHError _) with
  | error e =>
    rw [hpipe] at h
    exact absurd h (by simp)
  | ok combined =>
    rw [hpipe] at h
    simp only [Prod.mk.injEq] at h
    obtain ⟨_, hs'⟩ := h
    obtain ⟨pre, hpre, hrest⟩ := exceptBind_ok hpipe
    obtain ⟨conv, hconv, hcomb⟩ := exceptBind_ok hrest
    obtain ⟨hconvmem, hconvzone⟩ := convertAll_ok_basic hconv
    have hallbasic : ∀ e ∈ s.openingHours ++ conv, entryBasicB e = true := by
      intro e he
      rcases List.mem_append.mp he with he' | he'
      · exact entryOKB_basic (canonicalInvB_all hinv e he')
      · exact hconvmem e he'
    obtain ⟨hcanon, hnil⟩ := combineAndCheckIntegrity_ok hallbasic hcomb
    subst hs'
    refine ⟨hcanon, rfl, ?_⟩
    intro hne
    have happne : s.openingHours ++ conv ≠ [] := fun hc => hne (hnil.mpr hc)
    rcases hzone with hz | hz
    · apply hconvzone
      intro hc
      exact happne (by rw [hz, hc]; rfl)
    · exact hz

theorem addOpeningHour_eq_batch (tzdb : Tzdb) (s : Service)
    (dayOfWeek opens closes timezone : String) :
    addOpeningHour tzdb s dayOfWeek opens closes timezone =
      addOpeningHoursBatch tzdb s
        [{ atType := "OpeningHoursSpecification", dayOfWeek := dayOfWeek,
           opens := opens, closes := closes }] timezone := rfl

theorem removeOpeningHoursForDay_ok_exists {tzdb : Tzdb} {s s' : Service}
    {dayOfWeek timezone : String} {u : Unit}
    (h : removeOpeningHoursForDay tzdb s dayOfWeek timezone = (.ok u, s')) :
    ∃ combined, setOpeningHours tzdb s combined timezone = (.ok u, s') := by
  unfold removeOpeningHoursForDay at h
  split at h
  · exact absurd h (by simp)
  · exact ⟨_, h⟩

theorem setOpeningHours_ok_inv {tzdb : Tzdb} {s s' : Service}
    {hours : List OpeningHoursSpecification} {timezone : String} {u : Unit}
    (h : setOpeningHours tzdb s hours timezone = (.ok u, s')) :
    canonicalInvB s'.openingHours = true ∧
    (s'.openingHours = [] ∨ (tzdb s'.userTimezone).isSome = true) := by
  obtain ⟨hc, hu, hz⟩ := setOpeningHours_ok h
  refine ⟨hc, ?_⟩
  by_cases hnil : s'.openingHours = []
  · exact Or.inl hnil
  · rw [hu]
    exact Or.inr (hz hnil)

theorem addOpeningHoursBatch_ok_inv {tzdb : Tzdb} {s s' : Service}
    {hours : List OpeningHoursSpecification} {timezone : String} {u : Unit}
    (hinv : canonicalInvB s.openingHours = true)
    (hzone : s.openingHours = [] ∨ (tzdb s.userTimezone).isSome = true)
    (h : addOpeningHoursBatch tzdb s hours timezone = (.ok u, s')) :
    canonicalInvB s'.openingHours = true ∧
    (s'.openingHours = [] ∨ (tzdb s'.userTimezone).isSome = true) := by
  obtain ⟨hc, hu, hz⟩ := addOpeningHoursBatch_ok hinv hzone h
  refine ⟨hc, ?_⟩
  by_cases hnil : s'.openingHours = []
  · exact Or.inl hnil
  · rw [hu]
    exact Or.inr (hz hnil)

/-- Every reachable state satisfies the canonical invariant, and a non-empty
canonical set implies the internal timezone is recognized. -/
theorem reachable_stateInv {tzdb : Tzdb} {s : Service} (h : Reachable tzdb s) :
    canonicalInvB s.openingHours = true ∧
    (s.openingHours = [] ∨ (tzdb s.userTimezone).isSome = true) := by
  induction h with
  | init tz => exact ⟨rfl, Or.inl rfl⟩
  | set hs hstep ih => exact setOpeningHours_ok_inv hstep
  | addBatch hs hstep ih => exact addOpeningHoursBatch_ok_inv ih.1 ih.2 hstep
  | add hs hstep ih =>
    rename_i s₀ s₁ dayOfWeek opens closes timezone u
    rw [addOpeningHour_eq_batch] at hstep
    exact addOpeningHoursBatch_ok_inv ih.1 ih.2 hstep
  | remove hs hstep ih =>
    obtain ⟨combined, hset⟩ := removeOpeningHoursForDay_ok_exists hstep
    exact setOpeningHours_ok_inv hset

/-! ## Claim C3 -/

/-- C3: after every successful mutating operation (i.e. in every reachable
state), the stored canonical set is sorted by weekday (Monday=1..Sunday=7)
then by opens ascending; no interval has `opens = "24:00"`; every interval
has `closes` strictly greater than `opens` and at most 1440 minutes; and no
two consecutive same-day intervals overlap (each `closes` is at most the
next same-day interval's `opens`). -/
theorem C3_canonical_invariants {tzdb : Tzdb} {s : Service} (h : Reachable tzdb s) :
    chainB specLe s.openingHours = true ∧
    (∀ e ∈ s.openingHours, e.opens ≠ "24:00" ∧
      optLt (convertTimeToMinutes e.opens) (convertTimeToMinutes e.closes) = true ∧
      optLe (convertTimeToMinutes e.closes) (some 1440) = true) ∧
    chainB intPairOKB s.openingHours = true := by
  obtain ⟨hinv, _⟩ := reachable_stateInv h
  unfold canonicalInvB at hinv
  simp only [Bool.and_eq_true, List.all_eq_true] at hinv
  obtain ⟨⟨hall, hchain⟩, hgap⟩ := hinv
  refine ⟨hchain, ?_, ?_⟩
  · intro e he
    have hok := hall e he
    unfold entryOKB at hok
    simp only [Bool.and_eq_true] at hok
    obtain ⟨⟨hb, hlt⟩, hlt1440⟩ := hok
    have hbs := (entryBasicB_iff e).mp hb
    obtain ⟨vo, hvo1440, hvoeq, hvoconv⟩ := validTimeStr_elim hbs.2.2.1
    obtain ⟨vc, hvc1440, hvceq, hvcconv⟩ := validTimeStr_elim hbs.2.2.2
    refine ⟨?_, hlt, ?_⟩
    · rw [hvoconv] at hlt1440
      unfold optLt at hlt1440
      simp only [decide_eq_true_eq] at hlt1440
      rw [hvoeq]
      intro hcontra
      have : vo = 1440 := formatHm_inj hvo1440 (by omega)
        (by rw [hcontra]; rfl)
      omega
    · rw [hvcconv]
      unfold optLe
      simp only [decide_eq_true_eq]
      omega
  · refine chainB_imp _ hgap hgap ?_
    intro a _ b _ hr1 _
    unfold gapOKB at hr1
    unfold intPairOKB
    rcases Bool.or_eq_true _ _ |>.mp hr1 with hday | hgap2
    · simp [hday]
    · cases hca : convertTimeToMinutes a.closes with
      | none => simp [hca] at hgap2
      | some c =>
        cases hob : convertTimeToMinutes b.opens with
        | none => simp [hca, hob] at hgap2
        | some o =>
          rw [hca, hob] at hgap2
          simp only [decide_eq_true_eq] at hgap2
          unfold optLt
          simp only [hca, hob, Bool.or_eq_true, Bool.not_eq_true',
            decide_eq_false_iff_not, not_lt]
          right
          omega

/-- Witness for C3: the state after setting Monday 09:00–17:00 on a fresh
UTC service is reachable and satisfies all the invariant clauses. -/
theorem C3_canonical_invariants_witness :
    chainB specLe (Service.mk
      [{ atType := "OpeningHoursSpecification", dayOfWeek := "Monday",
         opens := "09:00", closes := "17:00" }] "UTC"
      "Mo 09:00-17:00; Tu off; We off; Th off; Fr off; Sa off; Su off").openingHours
        = true ∧
    (∀ e ∈ (Service.mk
      [{ atType := "OpeningHoursSpecification", dayOfWeek := "Monday",
         opens := "09:00", closes := "17:00" }] "UTC"
      "Mo 09:00-17:00; Tu off; We off; Th off; Fr off; Sa off; Su off").openingHours,
      e.opens ≠ "24:00" ∧
      optLt (convertTimeToMinutes e.opens) (convertTimeToMinutes e.closes) = true ∧
      optLe (convertTimeToMinutes e.closes) (some 1440) = true) ∧
    chainB intPairOKB (Service.mk
      [{ atType := "OpeningHoursSpecification", dayOfWeek := "Monday",
         opens := "09:00", closes := "17:00" }] "UTC"
      "Mo 09:00-17:00; Tu off; We off; Th off; Fr off; Sa off; Su off").openingHours
        = true :=
  C3_canonical_invariants
    (Reachable.set (Reachable.init "UTC")
      (by decide :
        setOpeningHours utcOnly (initService "UTC")
          [{ atType := "OpeningHoursSpecification", dayOfWeek := "Monday",
             opens := "09:00", closes := "17:00" }] "UTC" =
        (Except.ok (), Service.mk
          [{ atType := "OpeningHoursSpecification", dayOfWeek := "Monday",
             opens := "09:00", closes := "17:00" }] "UTC"
          "Mo 09:00-17:00; Tu off; We off; Th off; Fr off; Sa off; Su off")))

/-! ## Same-offset conversion identity -/

theorem adjustDayOfWeek_zero {d : String} {n : Nat}
    (hd : convertDayStringToNumber? d = some n) : adjustDayOfWeek d 0 = d := by
  unfold convertDayStringToNumber? at hd
  split_ifs at hd with h1 h2 h3 h4 h5 h6 h7
  · subst h1; decide
  · subst h2; decide
  · subst h3; decide
  · subst h4; decide
  · subst h5; decide
  · subst h6; decide
  · subst h7; decide

theorem adjustDayOfWeek_one_ne {d : String} {n : Nat}
    (hd : convertDayStringToNumber? d = some n) : adjustDayOfWeek d 1 ≠ d := by
  unfold convertDayStringToNumber? at hd
  split_ifs at hd with h1 h2 h3 h4 h5 h6 h7
  · subst h1; decide
  · subst h2; decide
  · subst h3; decide
  · subst h4; decide
  · subst h5; decide
  · subst h6; decide
  · subst h7; decide

theorem formatHm_ne_2400 {v : Nat} (hv : v < 1440) :
    (formatHm v == "24:00") = false := by
  rw [beq_eq_false_iff_ne]
  intro hcontra
  have : v = 1440 := formatHm_inj (by omega) (by omega) (by rw [hcontra]; rfl)
  omega

/-- Converting a canonical time between two zones with the same offset is the
identity, except that the `24:00` sentinel becomes `00:00` of the next
day. -/
theorem convertTimeWithDayChange_sameOffset {tzdb : Tzdb} {z1 z2 : String} {off : Int}
    (h1 : tzdb z1 = some off) (h2 : tzdb z2 = some off) {d : String} {n : Nat}
    (hd : convertDayStringToNumber? d = some n) (v : Nat) (hv : v ≤ 1440) :
    convertTimeWithDayChange tzdb (formatHm v) d z1 z2 =
      .ok (if v = 1440 then ("00:00", (1:Int)) else (formatHm v, (0:Int))) := by
  unfold convertTimeWithDayChange
  rw [hd, h1, h2, parseTimeParts_formatHm v hv]
  simp only [Bind.bind, Except.bind, pure, Except.pure]
  by_cases hv14 : v = 1440
  · rw [if_pos hv14]
    subst hv14
    rw [if_pos (show (formatHm 1440 == "24:00") = true from rfl)]
    simp only [Except.ok.injEq, Prod.mk.injEq]
    constructor
    · have h00 : "00:00" = formatHm 0 := rfl
      rw [h00]
      exact congrArg formatHm (by omega)
    · omega
  · rw [if_neg hv14]
    rw [if_neg (show ¬ (formatHm v == "24:00") = true by
      simp [formatHm_ne_2400 (by omega : v < 1440)])]
    simp only [Except.ok.injEq, Prod.mk.injEq]
    constructor
    · exact congrArg formatHm (by omega)
    · omega

/-- `entryOKB` decomposed into its arithmetic content. -/
theorem entryOKB_elim {e : OpeningHoursSpecification} (h : entryOKB e = true) :
    ∃ (n vo vc : Nat),
      e.atType = "OpeningHoursSpecification" ∧
      convertDayStringToNumber? e.dayOfWeek = some n ∧
      e.opens = formatHm vo ∧ e.closes = formatHm vc ∧
      convertTimeToMinutes e.opens = some (vo : Int) ∧
      convertTimeToMinutes e.closes = some (vc : Int) ∧
      vo < vc ∧ vc ≤ 1440 ∧ vo < 1440 := by
  unfold entryOKB at h
  simp only [Bool.and_eq_true] at h
  obtain ⟨⟨hb, hlt⟩, hlt1440⟩ := h
  have hbs := (entryBasicB_iff e).mp hb
  obtain ⟨vo, hvo1440, hvoeq, hvoconv⟩ := validTimeStr_elim hbs.2.2.1
  obtain ⟨vc, hvc1440, hvceq, hvcconv⟩ := validTimeStr_elim hbs.2.2.2
  obtain ⟨n, hn⟩ := Option.isSome_iff_exists.mp hbs.2.1
  refine ⟨n, vo, vc, hbs.1, hn, hvoeq, hvceq, hvoconv, hvcconv, ?_, hvc1440, ?_⟩
  · rw [hvoconv, hvcconv] at hlt
    unfold optLt at hlt
    simp only [decide_eq_true_eq] at hlt
    omega
  · rw [hvoconv] at hlt1440
    unfold optLt at hlt1440
    simp only [decide_eq_true_eq] at hlt1440
    omega

theorem convertTimeWithDayChange_sameOffset_lt {tzdb : Tzdb} {z1 z2 : String}
    {off : Int} (h1 : tzdb z1 = some off) (h2 : tzdb z2 = some off) {d : String}
    {n : Nat} (hd : convertDayStringToNumber? d = some n) (v : Nat) (hv : v < 1440) :
    convertTimeWithDayChange tzdb (formatHm v) d z1 z2 = .ok (formatHm v, (0:Int)) := by
  rw [convertTimeWithDayChange_sameOffset h1 h2 hd v (by omega)]
  rw [if_neg (by omega : ¬ v = 1440)]

theorem convertTimeWithDayChange_sameOffset_1440 {tzdb : Tzdb} {z1 z2 : String}
    {off : Int} (h1 : tzdb z1 = some off) (h2 : tzdb z2 = some off) {d : String}
    {n : Nat} (hd : convertDayStringToNumber? d = some n) :
    convertTimeWithDayChange tzdb (formatHm 1440) d z1 z2 = .ok ("00:00", (1:Int)) := by
  rw [convertTimeWithDayChange_sameOffset h1 h2 hd 1440 (by omega)]
  simp

/-- Converting a canonical entry between equal-offset zones is the
identity. -/
theorem convertAndSplitEntry_sameOffset {tzdb : Tzdb} {z1 z2 : String} {off : Int}
    (h1 : tzdb z1 = some off) (h2 : tzdb z2 = some off)
    {e : OpeningHoursSpecification} (he : entryOKB e = true) :
    convertAndSplitEntry tzdb e z1 z2 = .ok [e] := by
  obtain ⟨n, vo, vc, hat, hday, hoeq, hceq, _, _, hvovc, hvc1440, hvo1440⟩ :=
    entryOKB_elim he
  have hvo_ne : formatHm vo ≠ "24:00" := by
    intro hc
    have : vo = 1440 := formatHm_inj (by omega) (by omega) (by rw [hc]; rfl)
    omega
  unfold convertAndSplitEntry
  rw [hoeq, hceq]
  by_cases hvc14 : vc = 1440
  · subst hvc14
    rw [convertTimeWithDayChange_sameOffset_lt h1 h2 hday vo hvo1440,
      convertTimeWithDayChange_sameOffset_1440 h1 h2 hday]
    simp only [Bind.bind, Except.bind, pure, Except.pure]
    rw [adjustDayOfWeek_zero hday]
    rw [if_neg (fun hc => adjustDayOfWeek_one_ne hday hc.symm)]
    rw [if_neg (by
      intro hc
      exact hc.2 rfl)]
    rw [if_neg (by
      intro hc
      exact hvo_ne hc.1)]
    rw [if_neg hvo_ne]
    have he' : e =
        { atType := "OpeningHoursSpecification", dayOfWeek := e.dayOfWeek,
          opens := formatHm vo, closes := "24:00" } := by
      cases e
      simp_all [show formatHm 1440 = "24:00" from rfl]
    rw [← he']
  · rw [convertTimeWithDayChange_sameOffset_lt h1 h2 hday vo hvo1440,
      convertTimeWithDayChange_sameOffset_lt h1 h2 hday vc (by omega)]
    simp only [Bind.bind, Except.bind, pure, Except.pure]
    rw [if_pos trivial, adjustDayOfWeek_zero hday]
    have he' : e =
        { atType := "OpeningHoursSpecification", dayOfWeek := e.dayOfWeek,
          opens := formatHm vo, closes := formatHm vc } := by
      cases e
      simp_all
    rw [← he']

theorem convertAll_sameOffset {tzdb : Tzdb} {z1 z2 : String} {off : Int}
    (h1 : tzdb z1 = some off) (h2 : tzdb z2 = some off)
    {l : List OpeningHoursSpecification} (hl : ∀ e ∈ l, entryOKB e = true) :
    convertAll tzdb z1 z2 l = .ok l := by
  induction l with
  | nil => rfl
  | cons e rest ih =>
    unfold convertAll
    rw [convertAndSplitEntry_sameOffset h1 h2 (hl e (by simp))]
    simp only [Bind.bind, Except.bind]
    rw [ih (fun x hx => hl x (by simp [hx]))]
    rfl

theorem chainB_tail {α : Type} {r : α → α → Bool} {a : α} {l : List α}
    (h : chainB r (a :: l) = true) : chainB r l = true := by
  cases l with
  | nil => rfl
  | cons b tl =>
    simp only [chainB_cons_cons, Bool.and_eq_true] at h
    exact h.2

theorem canonicalInvB_tail {c : OpeningHoursSpecification}
    {rest : List OpeningHoursSpecification}
    (h : canonicalInvB (c :: rest) = true) : canonicalInvB rest = true := by
  unfold canonicalInvB at h ⊢
  simp only [Bool.and_eq_true] at h ⊢
  exact ⟨⟨by
      simp only [List.all_cons, Bool.and_eq_true] at h
      exact h.1.1.2, chainB_tail h.1.2⟩, chainB_tail h.2⟩

theorem checkIntegrityStep_ok_of {c : OpeningHoursSpecification}
    {next? : Option OpeningHoursSpecification} (hc : entryOKB c = true)
    (hnext : ∀ r, next? = some r → entryOKB r = true ∧ gapOKB c r = true) :
    checkIntegrityStep c next? = .ok () := by
  obtain ⟨n, vo, vc, hat, hday, hoeq, hceq, hoconv, hcconv, hvovc, hvc1440, hvo1440⟩ :=
    entryOKB_elim hc
  have hbeq : (c.opens == "24:00") = false := by
    rw [hoeq]
    exact formatHm_ne_2400 hvo1440
  have hle : optLe (convertTimeToMinutes c.closes) (convertTimeToMinutes c.opens) = false := by
    rw [hcconv, hoconv]
    unfold optLe
    simp only [decide_eq_false_iff_not, not_le]
    omega
  have hlt1440 : optLt (some 1440) (convertTimeToMinutes c.closes) = false := by
    rw [hcconv]
    unfold optLt
    simp only [decide_eq_false_iff_not, not_lt]
    omega
  unfold checkIntegrityStep
  rw [if_neg (show ¬ (c.opens == "24:00") = true by simp [hbeq])]
  rw [if_neg (show ¬ optLe (convertTimeToMinutes c.closes)
      (convertTimeToMinutes c.opens) = true by simp [hle])]
  rw [if_neg (show ¬ optLt (some 1440) (convertTimeToMinutes c.closes) = true by
    simp [hlt1440])]
  cases hn : next? with
  | none => rfl
  | some r =>
    obtain ⟨hrOK, hgap⟩ := hnext r hn
    by_cases hd : (c.dayOfWeek == r.dayOfWeek) = true
    · obtain ⟨n', vo', vc', _, _, hoeq', _, hoconv', _, _, _, _⟩ := entryOKB_elim hrOK
      unfold gapOKB at hgap
      rw [hcconv, hoconv'] at hgap
      have hbne : (c.dayOfWeek != r.dayOfWeek) = false := by
        simp only [bne, hd, Bool.not_true]
      rw [hbne] at hgap
      simp only [Bool.false_or, decide_eq_true_eq] at hgap
      have hfalse : optLt (convertTimeToMinutes r.opens)
          (convertTimeToMinutes c.closes) = false := by
        rw [hoconv', hcconv]
        unfold optLt
        simp only [decide_eq_false_iff_not, not_lt]
        omega
      simp [hd, hfalse, pure, Except.pure]
    · simp [hd, pure, Except.pure]

theorem canonicalInvB_checkIntegrity {l : List OpeningHoursSpecification}
    (h : canonicalInvB l = true) : checkIntegrity l = .ok () := by
  induction l with
  | nil => rfl
  | cons c rest ih =>
    have hall := canonicalInvB_all h
    have htail := canonicalInvB_tail h
    have hnext : ∀ r, rest.head? = some r →
        entryOKB r = true ∧ gapOKB c r = true := by
      intro r hr
      cases rest with
      | nil => simp at hr
      | cons r0 rs =>
        simp only [List.head?_cons, Option.some.injEq] at hr
        subst hr
        refine ⟨hall r0 (by simp), ?_⟩
        unfold canonicalInvB at h
        simp only [Bool.and_eq_true] at h
        have hg := h.2
        simp only [chainB_cons_cons, Bool.and_eq_true] at hg
        exact hg.1
    unfold checkIntegrity
    rw [checkIntegrityStep_ok_of (hall c (by simp)) hnext]
    simp only [Bind.bind, Except.bind]
    exact ih htail

theorem gapOKB_noAdj {a b : OpeningHoursSpecification}
    (ha : entryOKB a = true) (hb : entryOKB b = true)
    (h : gapOKB a b = true) : noAdjB a b = true := by
  obtain ⟨_, _, vc, _, _, _, _, _, hcconv, _, _, _⟩ := entryOKB_elim ha
  obtain ⟨_, vo', _, _, _, _, _, hoconv', _, _, _, _⟩ := entryOKB_elim hb
  unfold gapOKB at h
  unfold noAdjB areTimesAdjacent
  rw [hcconv, hoconv'] at h ⊢
  rcases Bool.or_eq_true _ _ |>.mp h with hday | hgap
  · simp only [bne] at hday
    simp only [Bool.not_eq_true'] at hday ⊢
    simp [hday]
  · simp only [decide_eq_true_eq] at hgap
    simp only [Bool.not_eq_true', Bool.and_eq_false_iff]
    right
    simp only [decide_eq_false_iff_not, not_le]
    omega

theorem canonicalInvB_noAdjChain {l : List OpeningHoursSpecification}
    (h : canonicalInvB l = true) : chainB noAdjB l = true := by
  have hall := canonicalInvB_all h
  unfold canonicalInvB at h
  simp only [Bool.and_eq_true] at h
  exact chainB_imp l h.2 h.2 (fun a ha b hb h1 _ =>
    gapOKB_noAdj (hall a ha) (hall b hb) h1)

theorem sortOpeningHours_self {l : List OpeningHoursSpecification}
    (hdays : ∀ e ∈ l, (convertDayStringToNumber? e.dayOfWeek).isSome = true)
    (hchain : chainB specLe l = true) : sortOpeningHours l = .ok l := by
  unfold sortOpeningHours
  split
  · rfl
  · have hfind : l.find?
        (fun s => (convertDayStringToNumber? s.dayOfWeek).isNone) = none := by
      rw [List.find?_eq_none]
      intro x hx
      simp only [Bool.not_eq_true, Option.isNone_eq_false_iff]
      exact hdays x hx
    rw [hfind, sortBySpec_eq_self l hchain]
    rfl

theorem combineAndCheckIntegrity_self {l : List OpeningHoursSpecification}
    (h : canonicalInvB l = true) : combineAndCheckIntegrity l = .ok l := by
  have hall := canonicalInvB_all h
  have hchain : chainB specLe l = true := by
    unfold canonicalInvB at h
    simp only [Bool.and_eq_true] at h
    exact h.1.2
  unfold combineAndCheckIntegrity
  rw [sortOpeningHours_self
    (fun e he => ((entryBasicB_iff e).mp (entryOKB_basic (hall e he))).2.1) hchain]
  simp only [Bind.bind, Except.bind]
  have hcomb : combineAdjacentRanges l = l := by
    cases l with
    | nil => rfl
    | cons c rest =>
      simp only [combineAdjacentRanges]
      exact combineAdjacentRangesGo_eq_self c rest (canonicalInvB_noAdjChain h)
  rw [hcomb, canonicalInvB_checkIntegrity h]
  rfl

/-! ## Claims C5 and C6 -/

/-- C5: running the Normalizer pipeline on its own output with identical
source and destination zones — `exportOpeningHours` in the internal zone on
the canonical set of any reachable state — returns exactly the stored
canonical set: no splitting, merging, reordering or time change occurs, and
the state is untouched. -/
theorem C5_export_same_zone_identity {tzdb : Tzdb} {s : Service}
    (h : Reachable tzdb s) :
    exportOpeningHours tzdb s s.userTimezone = (.ok s.openingHours, s) := by
  obtain ⟨hinv, hzone⟩ := reachable_stateInv h
  have hconv : convertAll tzdb s.userTimezone s.userTimezone s.openingHours =
      .ok s.openingHours := by
    rcases hzone with hz | hz
    · rw [hz]; rfl
    · obtain ⟨off, hoff⟩ := Option.isSome_iff_exists.mp hz
      exact convertAll_sameOffset hoff hoff (canonicalInvB_all hinv)
  have hcomb := combineAndCheckIntegrity_self hinv
  unfold exportOpeningHours
  rw [hconv]
  simp only [Bind.bind, Except.bind]
  rw [hcomb]

/-- Witness for C5: exporting the post-`set` state in its own zone returns
its canonical set untouched. -/
theorem C5_export_same_zone_identity_witness :
    exportOpeningHours utcOnly (Service.mk
      [{ atType := "OpeningHoursSpecification", dayOfWeek := "Monday",
         opens := "09:00", closes := "17:00" }] "UTC"
      "Mo 09:00-17:00; Tu off; We off; Th off; Fr off; Sa off; Su off") "UTC" =
    (.ok [{ atType := "OpeningHoursSpecification", dayOfWeek := "Monday",
            opens := "09:00", closes := "17:00" }],
     Service.mk
      [{ atType := "OpeningHoursSpecification", dayOfWeek := "Monday",
         opens := "09:00", closes := "17:00" }] "UTC"
      "Mo 09:00-17:00; Tu off; We off; Th off; Fr off; Sa off; Su off") :=
  C5_export_same_zone_identity
    (Reachable.set (Reachable.init "UTC")
      (by decide :
        setOpeningHours utcOnly (initService "UTC")
          [{ atType := "OpeningHoursSpecification", dayOfWeek := "Monday",
             opens := "09:00", closes := "17:00" }] "UTC" =
        (Except.ok (), Service.mk
          [{ atType := "OpeningHoursSpecification", dayOfWeek := "Monday",
             opens := "09:00", closes := "17:00" }] "UTC"
          "Mo 09:00-17:00; Tu off; We off; Th off; Fr off; Sa off; Su off")))

theorem entryOKB_mk {D : String} {n : Nat} (hD : convertDayStringToNumber? D = some n)
    {vo vc : Nat} (h1 : vo < vc) (h2 : vc ≤ 1440) (h3 : vo < 1440) :
    entryOKB { atType := "OpeningHoursSpecification", dayOfWeek := D,
               opens := formatHm vo, closes := formatHm vc } = true := by
  unfold entryOKB entryBasicB
  simp only [hD, validTimeStr_formatHm vo (by omega), validTimeStr_formatHm vc (by omega),
    convertTimeToMinutes_formatHm vo (by omega), convertTimeToMinutes_formatHm vc (by omega)]
  unfold optLt
  simp
  omega

theorem canonicalInvB_singleton {e : OpeningHoursSpecification}
    (h : entryOKB e = true) : canonicalInvB [e] = true := by
  unfold canonicalInvB
  simp [h]

/-- C6: a canonical interval closing at the `24:00` sentinel on any weekday
is returned by `exportOpeningHours` into the same zone completely unchanged —
the sentinel round-trips as `"24:00"` on the same weekday with no day-split
artifact. -/
theorem C6_sentinel_same_zone_export {tzdb : Tzdb} {z D : String} {n : Nat}
    {off : Int} (hD : convertDayStringToNumber? D = some n)
    (hz : tzdb z = some off) (t : Nat) (ht : t < 1440) (sched : String) :
    exportOpeningHours tzdb
      (Service.mk
        [{ atType := "OpeningHoursSpecification", dayOfWeek := D,
           opens := formatHm t, closes := "24:00" }] z sched) z =
    (.ok
      [{ atType := "OpeningHoursSpecification", dayOfWeek := D,
         opens := formatHm t, closes := "24:00" }],
     Service.mk
      [{ atType := "OpeningHoursSpecification", dayOfWeek := D,
         opens := formatHm t, closes := "24:00" }] z sched) := by
  have hok : entryOKB
      { atType := "OpeningHoursSpecification", dayOfWeek := D,
        opens := formatHm t, closes := "24:00" } = true :=
    entryOKB_mk hD ht (by omega) ht
  have hinv := canonicalInvB_singleton hok
  have hconv := convertAll_sameOffset hz hz
    (show ∀ e ∈ [({ atType := "OpeningHoursSpecification", dayOfWeek := D,
                    opens := formatHm t,
                    closes := "24:00" } : OpeningHoursSpecification)],
        entryOKB e = true by
      intro e he
      simp only [List.mem_singleton] at he
      subst he
      exact hok)
  have hcomb := combineAndCheckIntegrity_self hinv
  unfold exportOpeningHours
  rw [hconv]
  simp only [Bind.bind, Except.bind]
  rw [hcomb]

/-- Witness for C6 (the spec's concrete scenario B): Sunday 10:00–24:00 set
in UTC exports in UTC as exactly Sunday 10:00–24:00. -/
theorem C6_sentinel_same_zone_export_witness :
    exportOpeningHours utcOnly
      (Service.mk
        [{ atType := "OpeningHoursSpecification", dayOfWeek := "Sunday",
           opens := formatHm 600, closes := "24:00" }] "UTC"
        "Mo off; Tu off; We off; Th off; Fr off; Sa off; Su 10:00-24:00") "UTC" =
    (.ok
      [{ atType := "OpeningHoursSpecification", dayOfWeek := "Sunday",
         opens := formatHm 600, closes := "24:00" }],
     Service.mk
      [{ atType := "OpeningHoursSpecification", dayOfWeek := "Sunday",
         opens := formatHm 600, closes := "24:00" }] "UTC"
        "Mo off; Tu off; We off; Th off; Fr off; Sa off; Su 10:00-24:00") :=
  C6_sentinel_same_zone_export
    (by decide : convertDayStringToNumber? "Sunday" = some 7)
    (by decide : utcOnly "UTC" = some 0) 600 (by decide)
    "Mo off; Tu off; We off; Th off; Fr off; Sa off; Su 10:00-24:00"

/-! ## Claim C2 -/

theorem setOpeningHours_error_state {tzdb : Tzdb} {s : Service}
    {hours : List OpeningHoursSpecification} {timezone : String} {e : OHError}
    (h : (setOpeningHours tzdb s hours timezone).1 = .error e) :
    (setOpeningHours tzdb s hours timezone).2 = s := by
  unfold setOpeningHours at h ⊢
  cases hpipe : (do
      let preprocessedHours ← preprocessOpeningHours hours
      let convertedHours ← convertAll tzdb timezone s.userTimezone preprocessedHours
      combineAndCheckIntegrity convertedHours : Except OHError _) with
  | error e' => rfl
  | ok combined =>
    rw [hpipe] at h
    exact absurd h (by simp)

theorem addOpeningHoursBatch_error_state {tzdb : Tzdb} {s : Service}
    {hours : List OpeningHoursSpecification} {timezone : String} {e : OHError}
    (h : (addOpeningHoursBatch tzdb s hours timezone).1 = .error e) :
    (addOpeningHoursBatch tzdb s hours timezone).2 = s := by
  unfold addOpeningHoursBatch at h ⊢
  cases hpipe : (do
      let preprocessedEntry ← preprocessOpeningHours hours
      let convertedEntries ← convertAll tzdb timezone s.userTimezone preprocessedEntry
      combineAndCheckIntegrity (s.openingHours ++ convertedEntries) :
        Except OHError _) with
  | error e' => rfl
  | ok combined =>
    rw [hpipe] at h
    exact absurd h (by simp)

theorem removeOpeningHoursForDay_error_state {tzdb : Tzdb} {s : Service}
    {dayOfWeek timezone : String} {e : OHError}
    (h : (removeOpeningHoursForDay tzdb s dayOfWeek timezone).1 = .error e) :
    (removeOpeningHoursForDay tzdb s dayOfWeek timezone).2 = s := by
  unfold removeOpeningHoursForDay at h ⊢
  split at h
  · rfl
  · exact setOpeningHours_error_state h

/-- C2: if any of the four mutating operations throws, the canonical state —
interval set, internal zone, and compiled engine schedule alike — is exactly
what it was before the call; no entry is partially applied. -/
theorem C2_mutators_atomic (tzdb : Tzdb) (s : Service)
    (hours : List OpeningHoursSpecification)
    (dayOfWeek opens closes timezone : String) (e : OHError) :
    ((setOpeningHours tzdb s hours timezone).1 = .error e →
      (setOpeningHours tzdb s hours timezone).2 = s) ∧
    ((addOpeningHoursBatch tzdb s hours timezone).1 = .error e →
      (addOpeningHoursBatch tzdb s hours timezone).2 = s) ∧
    ((addOpeningHour tzdb s dayOfWeek opens closes timezone).1 = .error e →
      (addOpeningHour tzdb s dayOfWeek opens closes timezone).2 = s) ∧
    ((removeOpeningHoursForDay tzdb s dayOfWeek timezone).1 = .error e →
      (removeOpeningHoursForDay tzdb s dayOfWeek timezone).2 = s) :=
  ⟨setOpeningHours_error_state, addOpeningHoursBatch_error_state,
   fun h => addOpeningHoursBatch_error_state (addOpeningHour_eq_batch .. ▸ h),
   removeOpeningHoursForDay_error_state⟩

/-- Witness for C2: a reversed range makes `setOpeningHours` fail with
`InvalidTimeRange`, and the state is exactly the fresh state. -/
theorem C2_mutators_atomic_witness :
    (setOpeningHours utcOnly (initService "UTC")
      [{ atType := "OpeningHoursSpecification", dayOfWeek := "Monday",
         opens := "14:00", closes := "12:00" }] "UTC").1 =
      .error (.invalidTimeRange "Monday" "14:00" "12:00") ∧
    (setOpeningHours utcOnly (initService "UTC")
      [{ atType := "OpeningHoursSpecification", dayOfWeek := "Monday",
         opens := "14:00", closes := "12:00" }] "UTC").2 = initService "UTC" :=
  ⟨by decide,
   (C2_mutators_atomic utcOnly (initService "UTC")
      [{ atType := "OpeningHoursSpecification", dayOfWeek := "Monday",
         opens := "14:00", closes := "12:00" }]
      "Monday" "09:00" "17:00" "UTC"
      (.invalidTimeRange "Monday" "14:00" "12:00")).1 (by decide)⟩

/-! ## Claim C9 -/

/-- C9: the read operations — export, per-day view, single-day view, total
hours, days-without-hours, and validate — leave the service state (canonical
set, internal zone, and compiled engine schedule) unchanged for every input;
`validateOpeningHours` returns a boolean that is `true` exactly when the
validation pipeline raises no error, and (by its type) never throws. -/
theorem C9_read_ops_pure (tzdb : Tzdb) (s : Service) (timezone dayOfWeek : String)
    (hrs : List OpeningHoursSpecification) :
    (exportOpeningHours tzdb s timezone).2 = s ∧
    (getOpenRangePerDay tzdb s timezone).2 = s ∧
    (getOpenRangeForDay tzdb s dayOfWeek timezone).2 = s ∧
    (getTotalOpenHours s).2 = s ∧
    (getDaysWithoutOpeningHours s).2 = s ∧
    (validateOpeningHours s hrs).2 = s ∧
    ((validateOpeningHours s hrs).1 = true ↔
      (do
        let preprocessed ← preprocessOpeningHours hrs
        checkIntegrity preprocessed : Except OHError Unit) = .ok ()) := by
  refine ⟨?_, ?_, ?_, rfl, rfl, rfl, ?_⟩
  · unfold exportOpeningHours
    split <;> rfl
  · unfold getOpenRangePerDay
    split <;> rfl
  · unfold getOpenRangeForDay
    cases hper : getOpenRangePerDay tzdb s timezone with
    | mk fst snd =>
      cases fst with
      | error e =>
        have : (getOpenRangePerDay tzdb s timezone).2 = s := by
          unfold getOpenRangePerDay
          split <;> rfl
        rw [hper] at this
        simp only at this
        subst this
        rfl
      | ok ranges =>
        have : (getOpenRangePerDay tzdb s timezone).2 = s := by
          unfold getOpenRangePerDay
          split <;> rfl
        rw [hper] at this
        simp only at this
        subst this
        rfl
  · unfold validateOpeningHours
    cases hpipe : (do
        let preprocessed ← preprocessOpeningHours hrs
        checkIntegrity preprocessed : Except OHError Unit) with
    | error e => simp [hpipe]
    | ok u => cases u; simp [hpipe]

/-- Witness for C9 at a concrete state and inputs. -/
theorem C9_read_ops_pure_witness :
    (exportOpeningHours utcOnly (initService "UTC") "UTC").2 = initService "UTC" ∧
    (getOpenRangePerDay utcOnly (initService "UTC") "UTC").2 = initService "UTC" ∧
    (getOpenRangeForDay utcOnly (initService "UTC") "Monday" "UTC").2 =
      initService "UTC" ∧
    (getTotalOpenHours (initService "UTC")).2 = initService "UTC" ∧
    (getDaysWithoutOpeningHours (initService "UTC")).2 = initService "UTC" ∧
    (validateOpeningHours (initService "UTC") []).2 = initService "UTC" ∧
    ((validateOpeningHours (initService "UTC") []).1 = true ↔
      (do
        let preprocessed ← preprocessOpeningHours []
        checkIntegrity preprocessed : Except OHError Unit) = .ok ()) :=
  C9_read_ops_pure utcOnly (initService "UTC") "UTC" "Monday" []

/-! ## Claim C4 -/

/-- C4 (failing input, evaluated): take the canonical UTC schedule
`Monday 00:01–01:00, Sunday 23:00–24:00` (obtained by a successful
`setOpeningHours` in UTC).  Exporting it into the fixed-offset zone
`Etc/GMT-1` (UTC+1) lands both pieces on Monday with a one-minute gap
(00:00–01:00 and 01:01–02:00), which the one-minute adjacency merge absorbs
into `Monday 00:00–02:00`.  Converting that result back from `Etc/GMT-1` to
UTC therefore yields `Monday 00:00–01:00, Sunday 23:00–24:00` — not the
original set: the minute `Monday 00:00–00:01` has silently become open, so
the round-trip is not the identity. -/
theorem C4_round_trip_drift :
    setOpeningHours twoZones (initService "UTC")
      [{ atType := "OpeningHoursSpecification", dayOfWeek := "Monday",
         opens := "00:01", closes := "01:00" },
       { atType := "OpeningHoursSpecification", dayOfWeek := "Sunday",
         opens := "23:00", closes := "24:00" }] "UTC" =
      (.ok (), Service.mk
        [{ atType := "OpeningHoursSpecification", dayOfWeek := "Monday",
           opens := "00:01", closes := "01:00" },
         { atType := "OpeningHoursSpecification", dayOfWeek := "Sunday",
           opens := "23:00", closes := "24:00" }] "UTC"
        "Mo 00:01-01:00; Tu off; We off; Th off; Fr off; Sa off; Su 23:00-24:00") ∧
    (exportOpeningHours twoZones (Service.mk
        [{ atType := "OpeningHoursSpecification", dayOfWeek := "Monday",
           opens := "00:01", closes := "01:00" },
         { atType := "OpeningHoursSpecification", dayOfWeek := "Sunday",
           opens := "23:00", closes := "24:00" }] "UTC"
        "Mo 00:01-01:00; Tu off; We off; Th off; Fr off; Sa off; Su 23:00-24:00")
        "Etc/GMT-1").1 =
      .ok [{ atType := "OpeningHoursSpecification", dayOfWeek := "Monday",
             opens := "00:00", closes := "02:00" }] ∧
    (setOpeningHours twoZones (initService "UTC")
      [{ atType := "OpeningHoursSpecification", dayOfWeek := "Monday",
         opens := "00:00", closes := "02:00" }] "Etc/GMT-1").2.openingHours =
      [{ atType := "OpeningHoursSpecification", dayOfWeek := "Monday",
         opens := "00:00", closes := "01:00" },
       { atType := "OpeningHoursSpecification", dayOfWeek := "Sunday",
         opens := "23:00", closes := "24:00" }] ∧
    ([{ atType := "OpeningHoursSpecification", dayOfWeek := "Monday",
        opens := "00:00", closes := "01:00" },
      { atType := "OpeningHoursSpecification", dayOfWeek := "Sunday",
        opens := "23:00", closes := "24:00" }] :
        List OpeningHoursSpecification) ≠
      [{ atType := "OpeningHoursSpecification", dayOfWeek := "Monday",
         opens := "00:01", closes := "01:00" },
       { atType := "OpeningHoursSpecification", dayOfWeek := "Sunday",
         opens := "23:00", closes := "24:00" }] :=
  ⟨by decide, by decide, by decide, by decide⟩

/-! ## Claim C7 -/

theorem normalizeDayOfWeek_valid {d : String} {n : Nat}
    (hd : convertDayStringToNumber? d = some n) : normalizeDayOfWeek d = d := by
  unfold convertDayStringToNumber? at hd
  split_ifs at hd with h1 h2 h3 h4 h5 h6 h7
  · subst h1; decide
  · subst h2; decide
  · subst h3; decide
  · subst h4; decide
  · subst h5; decide
  · subst h6; decide
  · subst h7; decide

theorem preprocessOpeningHours_singleton {d o c : String} {n : Nat}
    (hd : convertDayStringToNumber? d = some n)
    (h1 : timeIsBefore c o = false) (h2 : c ≠ o) :
    preprocessOpeningHours
      [{ atType := "OpeningHoursSpecification", dayOfWeek := d,
         opens := o, closes := c }] =
      .ok [{ atType := "OpeningHoursSpecification", dayOfWeek := d,
             opens := o, closes := c }] := by
  unfold preprocessOpeningHours normalizeAndSplitDays
  simp only [List.map_cons, List.map_nil, normalizeDayOfWeek_valid hd]
  simp only [List.mapM_cons, List.mapM_nil]
  rw [if_neg (by
    simp only [Bool.or_eq_true, beq_iff_eq]
    push_neg
    exact ⟨by simp [h1], h2⟩)]
  simp [Bind.bind, Except.bind, pure, Except.pure]

theorem parse_of_minutes_lt {t : String} {m : Int}
    (h : convertTimeToMinutes t = some m) (hm : m < 1440) :
    ∃ hh mm : Nat, parseTimeParts t = some (hh, mm) ∧
      ((hh % 24 : Nat) : Int) * 60 + (mm : Int) = m ∧ (t == "24:00") = false := by
  unfold convertTimeToMinutes at h
  cases hp : parseTimeParts t with
  | none => rw [hp] at h; exact absurd h (by simp)
  | some pair =>
    obtain ⟨hh, mm⟩ := pair
    rw [hp] at h
    dsimp only at h
    by_cases h24 : (hh == 24 && mm == 0) = true
    · rw [if_pos h24] at h
      simp only [Option.some.injEq] at h
      omega
    · rw [if_neg h24] at h
      simp only [Option.some.injEq] at h
      have hhlt : hh < 24 := by
        by_contra hge
        push_neg at hge
        simp only [Bool.and_eq_true, beq_iff_eq] at h24
        rcases Nat.lt_or_ge hh 25 with h25 | h25
        · have : hh = 24 := by omega
          subst this
          have : mm ≠ 0 := fun hc => h24 ⟨rfl, hc⟩
          omega
        · omega
      refine ⟨hh, mm, rfl, ?_, ?_⟩
      · rw [Nat.mod_eq_of_lt hhlt]
        omega
      · rw [beq_eq_false_iff_ne]
        intro hc
        subst hc
        have : parseTimeParts "24:00" = some (24, 0) := by decide
        rw [this] at hp
        simp only [Option.some.injEq, Prod.mk.injEq] at hp
        omega

/-- Two spellings of the same sub-1440 minute value convert identically. -/
theorem convertTimeWithDayChange_congr_minutes {tzdb : Tzdb} {t1 t2 d z1 z2 : String}
    {m : Int} (h1 : convertTimeToMinutes t1 = some m)
    (h2 : convertTimeToMinutes t2 = some m) (hm : m < 1440) :
    convertTimeWithDayChange tzdb t1 d z1 z2 = convertTimeWithDayChange tzdb t2 d z1 z2 := by
  obtain ⟨hh1, mm1, hp1, hw1, hne1⟩ := parse_of_minutes_lt h1 hm
  obtain ⟨hh2, mm2, hp2, hw2, hne2⟩ := parse_of_minutes_lt h2 hm
  unfold convertTimeWithDayChange
  cases hd : convertDayStringToNumber? d with
  | none => rfl
  | some n =>
  cases hza : tzdb z1 with
  | none => rfl
  | some off1 =>
  cases hzb : tzdb z2 with
  | none => rfl
  | some off2 =>
  rw [hp1, hp2]
  simp only [Bind.bind, Except.bind, pure, Except.pure]
  rw [show (t1 == "24:00") = false from hne1, show (t2 == "24:00") = false from hne2]
  simp only [Bool.false_eq_true, if_false, Except.ok.injEq, Prod.mk.injEq]
  constructor
  · exact congrArg formatHm (by omega)
  · omega

theorem convertTimeWithDayChange_ok_exists {tzdb : Tzdb} {t d z1 z2 : String}
    {n : Nat} {off1 off2 : Int} {hh mm : Nat}
    (hd : convertDayStringToNumber? d = some n) (h1 : tzdb z1 = some off1)
    (h2 : tzdb z2 = some off2) (hp : parseTimeParts t = some (hh, mm)) :
    ∃ ts dd, convertTimeWithDayChange tzdb t d z1 z2 = .ok (ts, dd) := by
  unfold convertTimeWithDayChange
  rw [hd, h1, h2, hp]
  simp only [Bind.bind, Except.bind, pure, Except.pure]
  exact ⟨_, _, rfl⟩

/-- When both endpoints convert to the same result, the entry collapses to a
single degenerate interval. -/
theorem convertAndSplitEntry_degenerate {tzdb : Tzdb} {d o c z1 z2 ts : String}
    {dd : Int}
    (hconv1 : convertTimeWithDayChange tzdb o d z1 z2 = .ok (ts, dd))
    (hconv2 : convertTimeWithDayChange tzdb c d z1 z2 = .ok (ts, dd)) :
    convertAndSplitEntry tzdb
      { atType := "OpeningHoursSpecification", dayOfWeek := d,
        opens := o, closes := c } z1 z2 =
      .ok [{ atType := "OpeningHoursSpecification",
             dayOfWeek := adjustDayOfWeek d dd, opens := ts, closes := ts }] := by
  unfold convertAndSplitEntry
  rw [hconv1, hconv2]
  simp only [Bind.bind, Except.bind, pure, Except.pure]
  rw [if_pos trivial]

theorem checkIntegrity_degenerate {D' : String} {v : Nat} (hv : v < 1440) :
    checkIntegrity [{ atType := "OpeningHoursSpecification", dayOfWeek := D',
                      opens := formatHm v, closes := formatHm v }] =
      .error (.invalidTimeRange D' (formatHm v) (formatHm v)) := by
  unfold checkIntegrity checkIntegrityStep
  rw [if_neg (show ¬ ((formatHm v) == "24:00") = true by
    simp [formatHm_ne_2400 hv])]
  rw [if_pos (show optLe (convertTimeToMinutes (formatHm v))
      (convertTimeToMinutes (formatHm v)) = true by
    rw [convertTimeToMinutes_formatHm v (by omega)]
    unfold optLe
    simp)]
  simp [Bind.bind, Except.bind]

theorem combineAndCheckIntegrity_singleton_error {e : OpeningHoursSpecification}
    {err : OHError} (h : checkIntegrity [e] = .error err) :
    combineAndCheckIntegrity [e] = .error err := by
  unfold combineAndCheckIntegrity sortOpeningHours
  rw [if_pos (by simp)]
  simp only [Bind.bind, Except.bind, pure, Except.pure]
  rw [show combineAdjacentRanges [e] = [e] from rfl, h]

theorem preprocessOpeningHours_singleton_error {d o c : String}
    (h : (timeIsBefore c o || c == o) = true) :
    preprocessOpeningHours
      [{ atType := "OpeningHoursSpecification", dayOfWeek := d,
         opens := o, closes := c }] =
      .error (.invalidTimeRange (normalizeDayOfWeek d) o c) := by
  unfold preprocessOpeningHours normalizeAndSplitDays
  simp only [List.map_cons, List.map_nil]
  simp only [List.mapM_cons, List.mapM_nil]
  rw [if_pos h]
  simp [Bind.bind, Except.bind]

theorem addOpeningHour_preprocess_error {tzdb : Tzdb} {s : Service}
    {d o c tz : String} {err : OHError}
    (hpre : preprocessOpeningHours
      [{ atType := "OpeningHoursSpecification", dayOfWeek := d,
         opens := o, closes := c }] = .error err) :
    addOpeningHour tzdb s d o c tz = (.error err, s) := by
  rw [addOpeningHour_eq_batch]
  unfold addOpeningHoursBatch
  rw [hpre]
  simp only [Bind.bind, Except.bind]

theorem addOpeningHoursBatch_pipeline_error {tzdb : Tzdb} {s : Service}
    {l pre conv : List OpeningHoursSpecification} {tz : String} {err : OHError}
    (h1 : preprocessOpeningHours l = .ok pre)
    (h2 : convertAll tzdb tz s.userTimezone pre = .ok conv)
    (h3 : combineAndCheckIntegrity (s.openingHours ++ conv) = .error err) :
    addOpeningHoursBatch tzdb s l tz = (.error err, s) := by
  unfold addOpeningHoursBatch
  rw [h1]
  simp only [Bind.bind, Except.bind]
  rw [h2]
  dsimp only
  rw [h3]

/-- Counterexample to C8 as stated: `closes = "24:0"` parses to the same
minute value 1440 as `opens = "24:00"` (so closes ≤ opens), yet the call
succeeds and stores a full Tuesday interval: only the exact string
`"24:00"` is treated as the end-of-day sentinel, while `"24:0"` goes
through the modulo-24 wall-clock arithmetic and wraps to the next day. -/
theorem C8_closes_before_opens_counterexample :
    addOpeningHour utcOnly (initService "UTC") "Monday" "24:00" "24:0" "UTC" =
      (.ok (), Service.mk
        [{ atType := "OpeningHoursSpecification", dayOfWeek := "Tuesday",
           opens := "00:00", closes := "24:00" }] "UTC"
        "Mo off; Tu 00:00-24:00; We off; Th off; Fr off; Sa off; Su off") := by
  decide

/-- C8 (amended): for a candidate entry whose weekday and both time zones are
recognized and whose times parse to minute values `mo` (opens) and `mc`
(closes) with `mo < 1440`: if `mc < mo` the mutating call fails with
`InvalidTimeRange` and leaves the state untouched, for every starting state;
and if `mc = mo` (a degenerate candidate) the call on an empty schedule also
fails with `InvalidTimeRange` (either at preprocessing, when the two strings
are equal, or at the integrity check, on the converted degenerate interval)
and leaves the state untouched. -/
theorem C8_invalid_time_range_amended (tzdb : Tzdb) (s : Service)
    (d o c tz : String) (n : Nat) (off off' mo mc : Int)
    (hd : convertDayStringToNumber? d = some n)
    (hz : tzdb tz = some off)
    (hz' : tzdb s.userTimezone = some off')
    (ho : convertTimeToMinutes o = some mo)
    (hc : convertTimeToMinutes c = some mc)
    (hmo : mo < 1440) :
    (mc < mo →
      addOpeningHour tzdb s d o c tz = (.error (.invalidTimeRange d o c), s)) ∧
    (mc = mo → s.openingHours = [] → ∃ d' t',
      addOpeningHour tzdb s d o c tz = (.error (.invalidTimeRange d' t' t'), s)) := by
  constructor
  · intro hlt
    have hb : (timeIsBefore c o || c == o) = true := by
      unfold timeIsBefore
      rw [hc, ho]
      unfold optLt
      simp only [Bool.or_eq_true, decide_eq_true_eq]
      exact Or.inl hlt
    have hpre := @preprocessOpeningHours_singleton_error d o c hb
    rw [normalizeDayOfWeek_valid hd] at hpre
    exact addOpeningHour_preprocess_error hpre
  · intro heq hnil
    by_cases hco : c = o
    · subst hco
      have hb : (timeIsBefore c c || c == c) = true := by simp
      have hpre := @preprocessOpeningHours_singleton_error d c c hb
      rw [normalizeDayOfWeek_valid hd] at hpre
      exact ⟨d, c, addOpeningHour_preprocess_error hpre⟩
    · have h1 : timeIsBefore c o = false := by
        unfold timeIsBefore
        rw [hc, ho]
        unfold optLt
        simp only [decide_eq_false_iff_not]
        omega
      have hpre := preprocessOpeningHours_singleton hd h1 hco
      obtain ⟨hh, mm, hp, hw, hne⟩ := parse_of_minutes_lt ho hmo
      obtain ⟨ts, dd, hok⟩ := convertTimeWithDayChange_ok_exists hd hz hz' hp
      have hc' : convertTimeToMinutes c = some mo := by rw [hc, heq]
      have hcongr := @convertTimeWithDayChange_congr_minutes tzdb o c d tz
        s.userTimezone mo ho hc' hmo
      have hokc : convertTimeWithDayChange tzdb c d tz s.userTimezone =
          .ok (ts, dd) := by rw [← hcongr]; exact hok
      have hdeg := convertAndSplitEntry_degenerate hok hokc
      obtain ⟨⟨v, hv, hts⟩, -, -, -⟩ := convertTimeWithDayChange_ok hok
      simp only at hts
      have hconvAll : convertAll tzdb tz s.userTimezone
          [{ atType := "OpeningHoursSpecification", dayOfWeek := d,
             opens := o, closes := c }] =
          .ok [{ atType := "OpeningHoursSpecification",
                 dayOfWeek := adjustDayOfWeek d dd, opens := ts,
                 closes := ts }] := by
        unfold convertAll
        rw [hdeg]
        simp [Bind.bind, Except.bind, pure, Except.pure, convertAll]
      have hint : checkIntegrity
          [{ atType := "OpeningHoursSpecification",
             dayOfWeek := adjustDayOfWeek d dd, opens := ts, closes := ts }] =
          .error (.invalidTimeRange (adjustDayOfWeek d dd) ts ts) := by
        rw [hts]
        exact checkIntegrity_degenerate hv
      have hcomb := combineAndCheckIntegrity_singleton_error hint
      refine ⟨adjustDayOfWeek d dd, ts, ?_⟩
      rw [addOpeningHour_eq_batch]
      exact addOpeningHoursBatch_pipeline_error hpre hconvAll
        (by rw [hnil, List.nil_append]; exact hcomb)

/-- Witness for the amended C8 at a concrete input (spec scenario: overnight
range `23:00`–`02:00` on Monday rejected as `InvalidTimeRange`). -/
theorem C8_invalid_time_range_amended_witness :
    addOpeningHour utcOnly (initService "UTC") "Monday" "23:00" "02:00" "UTC" =
      (.error (.invalidTimeRange "Monday" "23:00" "02:00"), initService "UTC") :=
  (C8_invalid_time_range_amended utcOnly (initService "UTC") "Monday" "23:00"
    "02:00" "UTC" 1 0 0 1380 120 (by decide) (by decide) (by decide)
    (by decide) (by decide) (by decide)).1 (by decide)

/-! ## Claim C1 -/

theorem preprocess_guard_false {o c : Nat} (ho : o ≤ 1440) (hc : c ≤ 1440)
    (h : o < c) :
    (timeIsBefore (formatHm c) (formatHm o) || formatHm c == formatHm o) = false := by
  unfold timeIsBefore
  rw [convertTimeToMinutes_formatHm c hc, convertTimeToMinutes_formatHm o ho]
  unfold optLt
  simp only [Bool.or_eq_false_iff, decide_eq_false_iff_not, beq_eq_false_iff_ne]
  refine ⟨by omega, fun heq => ?_⟩
  have := formatHm_inj hc ho heq
  omega

theorem preprocessOpeningHours_pair {d1 d2 o1 c1 o2 c2 : String} {n1 n2 : Nat}
    (hd1 : convertDayStringToNumber? d1 = some n1)
    (hd2 : convertDayStringToNumber? d2 = some n2)
    (h1 : (timeIsBefore c1 o1 || c1 == o1) = false)
    (h2 : (timeIsBefore c2 o2 || c2 == o2) = false) :
    preprocessOpeningHours
      [{ atType := "OpeningHoursSpecification", dayOfWeek := d1,
         opens := o1, closes := c1 },
       { atType := "OpeningHoursSpecification", dayOfWeek := d2,
         opens := o2, closes := c2 }] =
      .ok [{ atType := "OpeningHoursSpecification", dayOfWeek := d1,
             opens := o1, closes := c1 },
           { atType := "OpeningHoursSpecification", dayOfWeek := d2,
             opens := o2, closes := c2 }] := by
  unfold preprocessOpeningHours normalizeAndSplitDays
  simp only [List.map_cons, List.map_nil, normalizeDayOfWeek_valid hd1,
    normalizeDayOfWeek_valid hd2]
  simp only [List.mapM_cons, List.mapM_nil]
  rw [if_neg (by simp [h1]), if_neg (by simp [h2])]
  simp [Bind.bind, Except.bind, pure, Except.pure]

/-- Counterexample to C1 as stated: the two Monday intervals 09:00–12:00 and
11:59–17:00 intersect for one minute, yet the call succeeds and silently
merges them into 09:00–17:00 — because the 1-minute `areTimesAdjacent`
tolerance of `combineAdjacentRanges` fires on the intersecting boundary
before `checkIntegrity` examines the pair. -/
theorem C1_overlap_silently_merged :
    setOpeningHours utcOnly (initService "UTC")
      [{ atType := "OpeningHoursSpecification", dayOfWeek := "Monday",
         opens := "09:00", closes := "12:00" },
       { atType := "OpeningHoursSpecification", dayOfWeek := "Monday",
         opens := "11:59", closes := "17:00" }] "UTC" =
      (.ok (), Service.mk
        [{ atType := "OpeningHoursSpecification", dayOfWeek := "Monday",
           opens := "09:00", closes := "17:00" }] "UTC"
        "Mo 09:00-17:00; Tu off; We off; Th off; Fr off; Sa off; Su off") := by
  decide

theorem sortOpeningHours_pair_le {D : String} {n o1 c1 o2 c2 : Nat}
    (hd : convertDayStringToNumber? D = some n)
    (ho1 : o1 ≤ 1440) (ho2 : o2 ≤ 1440) (hord : o1 ≤ o2) :
    sortOpeningHours
      [({ atType := "OpeningHoursSpecification", dayOfWeek := D,
          opens := formatHm o1, closes := formatHm c1 } :
            OpeningHoursSpecification),
       { atType := "OpeningHoursSpecification", dayOfWeek := D,
         opens := formatHm o2, closes := formatHm c2 }] =
      .ok [({ atType := "OpeningHoursSpecification", dayOfWeek := D,
              opens := formatHm o1, closes := formatHm c1 } :
                OpeningHoursSpecification),
           { atType := "OpeningHoursSpecification", dayOfWeek := D,
             opens := formatHm o2, closes := formatHm c2 }] := by
  have hcmp : compareOpeningHours
      { atType := "OpeningHoursSpecification", dayOfWeek := D,
        opens := formatHm o1, closes := formatHm c1 }
      { atType := "OpeningHoursSpecification", dayOfWeek := D,
        opens := formatHm o2, closes := formatHm c2 } = (o1 : Int) - o2 := by
    unfold compareOpeningHours
    simp only [hd]
    rw [if_neg (by simp)]
    rw [convertTimeToMinutes_formatHm o1 ho1,
      convertTimeToMinutes_formatHm o2 ho2]
  have hchain : chainB specLe
      [({ atType := "OpeningHoursSpecification", dayOfWeek := D,
          opens := formatHm o1, closes := formatHm c1 } :
            OpeningHoursSpecification),
       { atType := "OpeningHoursSpecification", dayOfWeek := D,
         opens := formatHm o2, closes := formatHm c2 }] = true := by
    simp only [chainB_cons_cons, chainB_singleton, Bool.and_true]
    unfold specLe
    rw [hcmp]
    simp only [decide_eq_true_eq]
    omega
  unfold sortOpeningHours
  rw [if_neg (by simp)]
  rw [show (List.find?
      (fun s' => (convertDayStringToNumber? s'.dayOfWeek).isNone)
      [({ atType := "OpeningHoursSpecification", dayOfWeek := D,
          opens := formatHm o1, closes := formatHm c1 } :
            OpeningHoursSpecification),
       { atType := "OpeningHoursSpecification", dayOfWeek := D,
         opens := formatHm o2, closes := formatHm c2 }]) = none by
    simp [List.find?_cons, hd]]
  rw [sortBySpec_eq_self _ hchain]
  rfl

theorem sortOpeningHours_pair_gt {D : String} {n o1 c1 o2 c2 : Nat}
    (hd : convertDayStringToNumber? D = some n)
    (ho1 : o1 ≤ 1440) (ho2 : o2 ≤ 1440) (hlt : o2 < o1) :
    sortOpeningHours
      [({ atType := "OpeningHoursSpecification", dayOfWeek := D,
          opens := formatHm o1, closes := formatHm c1 } :
            OpeningHoursSpecification),
       { atType := "OpeningHoursSpecification", dayOfWeek := D,
         opens := formatHm o2, closes := formatHm c2 }] =
      .ok [({ atType := "OpeningHoursSpecification", dayOfWeek := D,
              opens := formatHm o2, closes := formatHm c2 } :
                OpeningHoursSpecification),
           { atType := "OpeningHoursSpecification", dayOfWeek := D,
             opens := formatHm o1, closes := formatHm c1 }] := by
  have hcmp : compareOpeningHours
      { atType := "OpeningHoursSpecification", dayOfWeek := D,
        opens := formatHm o2, closes := formatHm c2 }
      { atType := "OpeningHoursSpecification", dayOfWeek := D,
        opens := formatHm o1, closes := formatHm c1 } = (o2 : Int) - o1 := by
    unfold compareOpeningHours
    simp only [hd]
    rw [if_neg (by simp)]
    rw [convertTimeToMinutes_formatHm o2 ho2,
      convertTimeToMinutes_formatHm o1 ho1]
  have hsb : sortBySpec
      [({ atType := "OpeningHoursSpecification", dayOfWeek := D,
          opens := formatHm o1, closes := formatHm c1 } :
            OpeningHoursSpecification),
       { atType := "OpeningHoursSpecification", dayOfWeek := D,
         opens := formatHm o2, closes := formatHm c2 }] =
      [({ atType := "OpeningHoursSpecification", dayOfWeek := D,
          opens := formatHm o2, closes := formatHm c2 } :
            OpeningHoursSpecification),
       { atType := "OpeningHoursSpecification", dayOfWeek := D,
         opens := formatHm o1, closes := formatHm c1 }] := by
    show insertSortedSpec
        { atType := "OpeningHoursSpecification", dayOfWeek := D,
          opens := formatHm o1, closes := formatHm c1 }
        (sortBySpec [{ atType := "OpeningHoursSpecification", dayOfWeek := D,
                       opens := formatHm o2, closes := formatHm c2 }]) = _
    rw [show sortBySpec
        [({ atType := "OpeningHoursSpecification", dayOfWeek := D,
            opens := formatHm o2, closes := formatHm c2 } :
              OpeningHoursSpecification)] =
        [{ atType := "OpeningHoursSpecification", dayOfWeek := D,
           opens := formatHm o2, closes := formatHm c2 }] from rfl]
    unfold insertSortedSpec
    rw [if_pos (by rw [hcmp]; omega)]
    rfl
  unfold sortOpeningHours
  rw [if_neg (by simp)]
  rw [show (List.find?
      (fun s' => (convertDayStringToNumber? s'.dayOfWeek).isNone)
      [({ atType := "OpeningHoursSpecification", dayOfWeek := D,
          opens := formatHm o1, closes := formatHm c1 } :
            OpeningHoursSpecification),
       { atType := "OpeningHoursSpecification", dayOfWeek := D,
         opens := formatHm o2, closes := formatHm c2 }]) = none by
    simp [List.find?_cons, hd]]
  rw [hsb]
  rfl

/-- Two same-day canonical intervals that survive the sort in order
`[oa, ca)` then `[ob, cb)` with `ca = ob + 1` (the earlier interval closes
exactly one minute past the later one's opens): the 1-minute adjacency merge
fuses them, the integrity check passes, and the single merged interval
`[oa, cb)` is returned. -/
theorem combineAndCheckIntegrity_sorted_pair_merge
    {L : List OpeningHoursSpecification} {D : String} {n oa ca ob cb : Nat}
    (hsort : sortOpeningHours L =
      .ok [({ atType := "OpeningHoursSpecification", dayOfWeek := D,
              opens := formatHm oa, closes := formatHm ca } :
                OpeningHoursSpecification),
           { atType := "OpeningHoursSpecification", dayOfWeek := D,
             opens := formatHm ob, closes := formatHm cb }])
    (hd : convertDayStringToNumber? D = some n)
    (h11 : oa < ca) (h12 : ca ≤ 1440) (h21 : ob < cb) (h22 : cb ≤ 1440)
    (hord : oa ≤ ob) (hadj : ca = ob + 1) :
    combineAndCheckIntegrity L =
      .ok [{ atType := "OpeningHoursSpecification", dayOfWeek := D,
             opens := formatHm oa, closes := formatHm cb }] := by
  have hoa : oa < 1440 := by omega
  have hadjB : areTimesAdjacent (formatHm ca) (formatHm ob) = true := by
    unfold areTimesAdjacent
    rw [convertTimeToMinutes_formatHm ca h12,
      convertTimeToMinutes_formatHm ob (by omega)]
    simp only [decide_eq_true_eq]
    omega
  have htib : timeIsBefore (formatHm cb) (formatHm ca) = false := by
    unfold timeIsBefore
    rw [convertTimeToMinutes_formatHm cb h22,
      convertTimeToMinutes_formatHm ca h12]
    unfold optLt
    simp only [decide_eq_false_iff_not]
    omega
  have hcombine : combineAdjacentRanges
      [({ atType := "OpeningHoursSpecification", dayOfWeek := D,
          opens := formatHm oa, closes := formatHm ca } :
            OpeningHoursSpecification),
       { atType := "OpeningHoursSpecification", dayOfWeek := D,
         opens := formatHm ob, closes := formatHm cb }] =
      [{ atType := "OpeningHoursSpecification", dayOfWeek := D,
         opens := formatHm oa, closes := formatHm cb }] := by
    unfold combineAdjacentRanges combineAdjacentRangesGo
    simp only [hadjB, htib, beq_self_eq_true, Bool.and_self, Bool.true_and,
      Bool.and_true, if_true, if_false, Bool.false_eq_true]
    rfl
  have hEm : entryOKB
      { atType := "OpeningHoursSpecification", dayOfWeek := D,
        opens := formatHm oa, closes := formatHm cb } = true :=
    entryOKB_mk hd (show oa < cb by omega) h22 hoa
  have hchk : checkIntegrity
      [({ atType := "OpeningHoursSpecification", dayOfWeek := D,
          opens := formatHm oa, closes := formatHm cb } :
            OpeningHoursSpecification)] = .ok () :=
    canonicalInvB_checkIntegrity (canonicalInvB_singleton hEm)
  unfold combineAndCheckIntegrity
  rw [hsort]
  simp only [Bind.bind, Except.bind]
  rw [hcombine, hchk]
  rfl

/-- Two same-day canonical intervals that survive the sort in order
`[oa, ca)` then `[ob, cb)` whose ranges intersect by at least two minutes
(`ob + 2 ≤ ca`): the adjacency merge does not fire and the integrity check
fails with `OverlapError` naming both ranges. -/
theorem combineAndCheckIntegrity_sorted_pair_overlap
    {L : List OpeningHoursSpecification} {D : String} {n oa ca ob cb : Nat}
    (hsort : sortOpeningHours L =
      .ok [({ atType := "OpeningHoursSpecification", dayOfWeek := D,
              opens := formatHm oa, closes := formatHm ca } :
                OpeningHoursSpecification),
           { atType := "OpeningHoursSpecification", dayOfWeek := D,
             opens := formatHm ob, closes := formatHm cb }])
    (hd : convertDayStringToNumber? D = some n)
    (h11 : oa < ca) (h12 : ca ≤ 1440) (h21 : ob < cb) (h22 : cb ≤ 1440)
    (hord : oa ≤ ob) (hgap : ob + 2 ≤ ca) :
    combineAndCheckIntegrity L =
      .error (.overlapError D (formatHm oa) (formatHm ca)
        (formatHm ob) (formatHm cb)) := by
  have hoa : oa < 1440 := by omega
  have hadjB : areTimesAdjacent (formatHm ca) (formatHm ob) = false := by
    unfold areTimesAdjacent
    rw [convertTimeToMinutes_formatHm ca h12,
      convertTimeToMinutes_formatHm ob (by omega)]
    simp only [decide_eq_false_iff_not]
    omega
  have hcombine : combineAdjacentRanges
      [({ atType := "OpeningHoursSpecification", dayOfWeek := D,
          opens := formatHm oa, closes := formatHm ca } :
            OpeningHoursSpecification),
       { atType := "OpeningHoursSpecification", dayOfWeek := D,
         opens := formatHm ob, closes := formatHm cb }] =
      [({ atType := "OpeningHoursSpecification", dayOfWeek := D,
          opens := formatHm oa, closes := formatHm ca } :
            OpeningHoursSpecification),
       { atType := "OpeningHoursSpecification", dayOfWeek := D,
         opens := formatHm ob, closes := formatHm cb }] := by
    unfold combineAdjacentRanges combineAdjacentRangesGo
    simp only [hadjB, Bool.and_false, if_false, Bool.false_eq_true]
    rfl
  have hstep : checkIntegrityStep
      { atType := "OpeningHoursSpecification", dayOfWeek := D,
        opens := formatHm oa, closes := formatHm ca }
      (some { atType := "OpeningHoursSpecification", dayOfWeek := D,
              opens := formatHm ob, closes := formatHm cb }) =
      .error (.overlapError D (formatHm oa) (formatHm ca)
        (formatHm ob) (formatHm cb)) := by
    unfold checkIntegrityStep
    rw [if_neg (by simp [formatHm_ne_2400 hoa])]
    rw [if_neg (by
      rw [convertTimeToMinutes_formatHm ca h12,
        convertTimeToMinutes_formatHm oa (by omega)]
      unfold optLe
      simp only [decide_eq_true_eq]
      omega)]
    rw [if_neg (by
      rw [convertTimeToMinutes_formatHm ca h12]
      unfold optLt
      simp only [decide_eq_true_eq]
      omega)]
    dsimp only
    rw [if_pos (by simp)]
    rw [if_pos (by
      rw [convertTimeToMinutes_formatHm ca h12,
        convertTimeToMinutes_formatHm ob (by omega)]
      unfold optLt
      simp only [decide_eq_true_eq]
      omega)]
  have hchk : checkIntegrity
      [({ atType := "OpeningHoursSpecification", dayOfWeek := D,
          opens := formatHm oa, closes := formatHm ca } :
            OpeningHoursSpecification),
       { atType := "OpeningHoursSpecification", dayOfWeek := D,
         opens := formatHm ob, closes := formatHm cb }] =
      .error (.overlapError D (formatHm oa) (formatHm ca)
        (formatHm ob) (formatHm cb)) := by
    unfold checkIntegrity
    rw [show (List.head?
        [({ atType := "OpeningHoursSpecification", dayOfWeek := D,
            opens := formatHm ob, closes := formatHm cb } :
              OpeningHoursSpecification)]) =
        some { atType := "OpeningHoursSpecification", dayOfWeek := D,
               opens := formatHm ob, closes := formatHm cb } from rfl]
    rw [hstep]
    simp [Bind.bind, Except.bind]
  unfold combineAndCheckIntegrity
  rw [hsort]
  simp only [Bind.bind, Except.bind]
  rw [hcombine, hchk]

theorem setOpeningHours_pipeline_ok {tzdb : Tzdb} {s : Service}
    {E P C R : List OpeningHoursSpecification} {tz : String}
    (h1 : preprocessOpeningHours E = .ok P)
    (h2 : convertAll tzdb tz s.userTimezone P = .ok C)
    (h3 : combineAndCheckIntegrity C = .ok R) :
    setOpeningHours tzdb s E tz =
      (.ok (), { s with openingHours := R,
                        scheduleString := generateScheduleString R }) := by
  unfold setOpeningHours
  rw [h1]
  simp only [Bind.bind, Except.bind]
  rw [h2]
  dsimp only
  rw [h3]

theorem setOpeningHours_pipeline_error {tzdb : Tzdb} {s : Service}
    {E P C : List OpeningHoursSpecification} {tz : String} {err : OHError}
    (h1 : preprocessOpeningHours E = .ok P)
    (h2 : convertAll tzdb tz s.userTimezone P = .ok C)
    (h3 : combineAndCheckIntegrity C = .error err) :
    setOpeningHours tzdb s E tz = (.error err, s) := by
  unfold setOpeningHours
  rw [h1]
  simp only [Bind.bind, Except.bind]
  rw [h2]
  dsimp only
  rw [h3]

theorem addOpeningHoursBatch_pipeline_ok {tzdb : Tzdb} {s : Service}
    {E P C R : List OpeningHoursSpecification} {tz : String}
    (h1 : preprocessOpeningHours E = .ok P)
    (h2 : convertAll tzdb tz s.userTimezone P = .ok C)
    (h3 : combineAndCheckIntegrity (s.openingHours ++ C) = .ok R) :
    addOpeningHoursBatch tzdb s E tz =
      (.ok (), { s with openingHours := R,
                        scheduleString := generateScheduleString R }) := by
  unfold addOpeningHoursBatch
  rw [h1]
  simp only [Bind.bind, Except.bind]
  rw [h2]
  dsimp only
  rw [h3]

/-- C1 (amended): for every pair of same-weekday intervals examined by a
mutating call — two candidates of one `setOpeningHours` or
`addOpeningHoursBatch` call, or a new candidate (`addOpeningHour` /
`addOpeningHoursBatch`) against an existing canonical entry, in either
`opens` order — with the pair compared after timezone conversion of the
candidates into the internal zone (the conversion hypotheses hold for
arbitrary recognized zones): if their minute ranges `[o1, c1)` and
`[o2, c2)` intersect, the call fails with `OverlapError` naming both
conflicting ranges and leaves the state unchanged, **unless** the interval
with the earlier `opens` closes exactly one minute past the other's `opens`;
in that single boundary case the 1-minute `areTimesAdjacent` tolerance
silently merges the pair into one interval from the earlier `opens` to the
later `closes` and the call succeeds.  Only the claim's "never silently
merges" clause is refuted (see the counterexample), and only in that
one-minute case. -/
theorem C1_overlap_amended (tzdb : Tzdb) (s : Service) (tz : String)
    (E P C : List OpeningHoursSpecification) (D : String)
    (n o1 c1 o2 c2 : Nat)
    (hd : convertDayStringToNumber? D = some n)
    (h11 : o1 < c1) (h12 : c1 ≤ 1440)
    (h21 : o2 < c2) (h22 : c2 ≤ 1440)
    (hx1 : o2 < c1) (hx2 : o1 < c2)
    (hpre : preprocessOpeningHours E = .ok P)
    (hconv : convertAll tzdb tz s.userTimezone P = .ok C) :
    (o1 ≤ o2 →
      C = [({ atType := "OpeningHoursSpecification", dayOfWeek := D,
              opens := formatHm o1, closes := formatHm c1 } :
                OpeningHoursSpecification),
           { atType := "OpeningHoursSpecification", dayOfWeek := D,
             opens := formatHm o2, closes := formatHm c2 }] →
      (c1 = o2 + 1 →
        setOpeningHours tzdb s E tz =
          (.ok (), { s with
            openingHours :=
              [{ atType := "OpeningHoursSpecification", dayOfWeek := D,
                 opens := formatHm o1, closes := formatHm c2 }],
            scheduleString := generateScheduleString
              [{ atType := "OpeningHoursSpecification", dayOfWeek := D,
                 opens := formatHm o1, closes := formatHm c2 }] })) ∧
      (o2 + 2 ≤ c1 →
        setOpeningHours tzdb s E tz =
          (.error (.overlapError D (formatHm o1) (formatHm c1)
            (formatHm o2) (formatHm c2)), s))) ∧
    (o1 ≤ o2 → s.openingHours = [] →
      C = [({ atType := "OpeningHoursSpecification", dayOfWeek := D,
              opens := formatHm o1, closes := formatHm c1 } :
                OpeningHoursSpecification),
           { atType := "OpeningHoursSpecification", dayOfWeek := D,
             opens := formatHm o2, closes := formatHm c2 }] →
      (c1 = o2 + 1 →
        addOpeningHoursBatch tzdb s E tz =
          (.ok (), { s with
            openingHours :=
              [{ atType := "OpeningHoursSpecification", dayOfWeek := D,
                 opens := formatHm o1, closes := formatHm c2 }],
            scheduleString := generateScheduleString
              [{ atType := "OpeningHoursSpecification", dayOfWeek := D,
                 opens := formatHm o1, closes := formatHm c2 }] })) ∧
      (o2 + 2 ≤ c1 →
        addOpeningHoursBatch tzdb s E tz =
          (.error (.overlapError D (formatHm o1) (formatHm c1)
            (formatHm o2) (formatHm c2)), s))) ∧
    (o1 ≤ o2 →
      s.openingHours =
        [{ atType := "OpeningHoursSpecification", dayOfWeek := D,
           opens := formatHm o1, closes := formatHm c1 }] →
      C = [({ atType := "OpeningHoursSpecification", dayOfWeek := D,
              opens := formatHm o2, closes := formatHm c2 } :
                OpeningHoursSpecification)] →
      (c1 = o2 + 1 →
        addOpeningHoursBatch tzdb s E tz =
          (.ok (), { s with
            openingHours :=
              [{ atType := "OpeningHoursSpecification", dayOfWeek := D,
                 opens := formatHm o1, closes := formatHm c2 }],
            scheduleString := generateScheduleString
              [{ atType := "OpeningHoursSpecification", dayOfWeek := D,
                 opens := formatHm o1, closes := formatHm c2 }] })) ∧
      (o2 + 2 ≤ c1 →
        addOpeningHoursBatch tzdb s E tz =
          (.error (.overlapError D (formatHm o1) (formatHm c1)
            (formatHm o2) (formatHm c2)), s))) ∧
    (o2 < o1 →
      s.openingHours =
        [{ atType := "OpeningHoursSpecification", dayOfWeek := D,
           opens := formatHm o1, closes := formatHm c1 }] →
      C = [({ atType := "OpeningHoursSpecification", dayOfWeek := D,
              opens := formatHm o2, closes := formatHm c2 } :
                OpeningHoursSpecification)] →
      (c2 = o1 + 1 →
        addOpeningHoursBatch tzdb s E tz =
          (.ok (), { s with
            openingHours :=
              [{ atType := "OpeningHoursSpecification", dayOfWeek := D,
                 opens := formatHm o2, closes := formatHm c1 }],
            scheduleString := generateScheduleString
              [{ atType := "OpeningHoursSpecification", dayOfWeek := D,
                 opens := formatHm o2, closes := formatHm c1 }] })) ∧
      (o1 + 2 ≤ c2 →
        addOpeningHoursBatch tzdb s E tz =
          (.error (.overlapError D (formatHm o2) (formatHm c2)
            (formatHm o1) (formatHm c1)), s))) ∧
    (o1 ≤ o2 →
      s.openingHours =
        [{ atType := "OpeningHoursSpecification", dayOfWeek := D,
           opens := formatHm o1, closes := formatHm c1 }] →
      C = [({ atType := "OpeningHoursSpecification", dayOfWeek := D,
              opens := formatHm o2, closes := formatHm c2 } :
                OpeningHoursSpecification)] →
      ∀ dd oo cc : String,
      E = [{ atType := "OpeningHoursSpecification", dayOfWeek := dd,
             opens := oo, closes := cc }] →
      (c1 = o2 + 1 →
        addOpeningHour tzdb s dd oo cc tz =
          (.ok (), { s with
            openingHours :=
              [{ atType := "OpeningHoursSpecification", dayOfWeek := D,
                 opens := formatHm o1, closes := formatHm c2 }],
            scheduleString := generateScheduleString
              [{ atType := "OpeningHoursSpecification", dayOfWeek := D,
                 opens := formatHm o1, closes := formatHm c2 }] })) ∧
      (o2 + 2 ≤ c1 →
        addOpeningHour tzdb s dd oo cc tz =
          (.error (.overlapError D (formatHm o1) (formatHm c1)
            (formatHm o2) (formatHm c2)), s))) ∧
    (o2 < o1 →
      s.openingHours =
        [{ atType := "OpeningHoursSpecification", dayOfWeek := D,
           opens := formatHm o1, closes := formatHm c1 }] →
      C = [({ atType := "OpeningHoursSpecification", dayOfWeek := D,
              opens := formatHm o2, closes := formatHm c2 } :
                OpeningHoursSpecification)] →
      ∀ dd oo cc : String,
      E = [{ atType := "OpeningHoursSpecification", dayOfWeek := dd,
             opens := oo, closes := cc }] →
      (c2 = o1 + 1 →
        addOpeningHour tzdb s dd oo cc tz =
          (.ok (), { s with
            openingHours :=
              [{ atType := "OpeningHoursSpecification", dayOfWeek := D,
                 opens := formatHm o2, closes := formatHm c1 }],
            scheduleString := generateScheduleString
              [{ atType := "OpeningHoursSpecification", dayOfWeek := D,
                 opens := formatHm o2, closes := formatHm c1 }] })) ∧
      (o1 + 2 ≤ c2 →
        addOpeningHour tzdb s dd oo cc tz =
          (.error (.overlapError D (formatHm o2) (formatHm c2)
            (formatHm o1) (formatHm c1)), s))) := by
  have ho1 : o1 < 1440 := by omega
  have ho2 : o2 < 1440 := by omega
  have coreM : o1 ≤ o2 → c1 = o2 + 1 →
      combineAndCheckIntegrity
        [({ atType := "OpeningHoursSpecification", dayOfWeek := D,
            opens := formatHm o1, closes := formatHm c1 } :
              OpeningHoursSpecification),
         { atType := "OpeningHoursSpecification", dayOfWeek := D,
           opens := formatHm o2, closes := formatHm c2 }] =
        .ok [{ atType := "OpeningHoursSpecification", dayOfWeek := D,
               opens := formatHm o1, closes := formatHm c2 }] :=
    fun hord hadj =>
      combineAndCheckIntegrity_sorted_pair_merge
        (sortOpeningHours_pair_le hd (by omega) (by omega) hord)
        hd h11 h12 h21 h22 hord hadj
  have coreO : o1 ≤ o2 → o2 + 2 ≤ c1 →
      combineAndCheckIntegrity
        [({ atType := "OpeningHoursSpecification", dayOfWeek := D,
            opens := formatHm o1, closes := formatHm c1 } :
              OpeningHoursSpecification),
         { atType := "OpeningHoursSpecification", dayOfWeek := D,
           opens := formatHm o2, closes := formatHm c2 }] =
        .error (.overlapError D (formatHm o1) (formatHm c1)
          (formatHm o2) (formatHm c2)) :=
    fun hord hgap =>
      combineAndCheckIntegrity_sorted_pair_overlap
        (sortOpeningHours_pair_le hd (by omega) (by omega) hord)
        hd h11 h12 h21 h22 hord hgap
  have coreMr : o2 < o1 → c2 = o1 + 1 →
      combineAndCheckIntegrity
        [({ atType := "OpeningHoursSpecification", dayOfWeek := D,
            opens := formatHm o1, closes := formatHm c1 } :
              OpeningHoursSpecification),
         { atType := "OpeningHoursSpecification", dayOfWeek := D,
           opens := formatHm o2, closes := formatHm c2 }] =
        .ok [{ atType := "OpeningHoursSpecification", dayOfWeek := D,
               opens := formatHm o2, closes := formatHm c1 }] :=
    fun hlt hadj =>
      combineAndCheckIntegrity_sorted_pair_merge
        (sortOpeningHours_pair_gt hd (by omega) (by omega) hlt)
        hd h21 h22 h11 h12 (by omega) hadj
  have coreOr : o2 < o1 → o1 + 2 ≤ c2 →
      combineAndCheckIntegrity
        [({ atType := "OpeningHoursSpecification", dayOfWeek := D,
            opens := formatHm o1, closes := formatHm c1 } :
              OpeningHoursSpecification),
         { atType := "OpeningHoursSpecification", dayOfWeek := D,
           opens := formatHm o2, closes := formatHm c2 }] =
        .error (.overlapError D (formatHm o2) (formatHm c2)
          (formatHm o1) (formatHm c1)) :=
    fun hlt hgap =>
      combineAndCheckIntegrity_sorted_pair_overlap
        (sortOpeningHours_pair_gt hd (by omega) (by omega) hlt)
        hd h21 h22 h11 h12 (by omega) hgap
  refine ⟨?_, ?_, ?_, ?_, ?_, ?_⟩
  · intro hord hC
    exact ⟨fun hadj => setOpeningHours_pipeline_ok hpre hconv
        (by rw [hC]; exact coreM hord hadj),
      fun hgap => setOpeningHours_pipeline_error hpre hconv
        (by rw [hC]; exact coreO hord hgap)⟩
  · intro hord hs0 hC
    exact ⟨fun hadj => addOpeningHoursBatch_pipeline_ok hpre hconv
        (by rw [hs0, hC, List.nil_append]; exact coreM hord hadj),
      fun hgap => addOpeningHoursBatch_pipeline_error hpre hconv
        (by rw [hs0, hC, List.nil_append]; exact coreO hord hgap)⟩
  · intro hord hs0 hC
    exact ⟨fun hadj => addOpeningHoursBatch_pipeline_ok hpre hconv
        (by rw [hs0, hC]; exact coreM hord hadj),
      fun hgap => addOpeningHoursBatch_pipeline_error hpre hconv
        (by rw [hs0, hC]; exact coreO hord hgap)⟩
  · intro hlt hs0 hC
    exact ⟨fun hadj => addOpeningHoursBatch_pipeline_ok hpre hconv
        (by rw [hs0, hC]; exact coreMr hlt hadj),
      fun hgap => addOpeningHoursBatch_pipeline_error hpre hconv
        (by rw [hs0, hC]; exact coreOr hlt hgap)⟩
  · intro hord hs0 hC dd oo cc hE
    constructor
    · intro hadj
      rw [addOpeningHour_eq_batch, ← hE]
      exact addOpeningHoursBatch_pipeline_ok hpre hconv
        (by rw [hs0, hC]; exact coreM hord hadj)
    · intro hgap
      rw [addOpeningHour_eq_batch, ← hE]
      exact addOpeningHoursBatch_pipeline_error hpre hconv
        (by rw [hs0, hC]; exact coreO hord hgap)
  · intro hlt hs0 hC dd oo cc hE
    constructor
    · intro hadj
      rw [addOpeningHour_eq_batch, ← hE]
      exact addOpeningHoursBatch_pipeline_ok hpre hconv
        (by rw [hs0, hC]; exact coreMr hlt hadj)
    · intro hgap
      rw [addOpeningHour_eq_batch, ← hE]
      exact addOpeningHoursBatch_pipeline_error hpre hconv
        (by rw [hs0, hC]; exact coreOr hlt hgap)

/-- Witness for the amended C1 at concrete inputs: a new Monday candidate
11:00–18:00 supplied in `Etc/GMT-1` converts to 10:00–17:00 UTC, intersects
the existing canonical Monday 09:00–17:00 entry, and `addOpeningHour` fails
with `OverlapError` naming both converted ranges, leaving the state
unchanged; and two new candidates 09:00–12:00 and 11:59–17:00 intersecting
by exactly one minute are silently merged by `setOpeningHours` into
09:00–17:00. -/
theorem C1_overlap_amended_witness :
    addOpeningHour twoZones
        (Service.mk
          [{ atType := "OpeningHoursSpecification", dayOfWeek := "Monday",
             opens := "09:00", closes := "17:00" }] "UTC"
          "Mo 09:00-17:00; Tu off; We off; Th off; Fr off; Sa off; Su off")
        "Monday" "11:00" "18:00" "Etc/GMT-1" =
      (.error (.overlapError "Monday" "09:00" "17:00" "10:00" "17:00"),
        Service.mk
          [{ atType := "OpeningHoursSpecification", dayOfWeek := "Monday",
             opens := "09:00", closes := "17:00" }] "UTC"
          "Mo 09:00-17:00; Tu off; We off; Th off; Fr off; Sa off; Su off") ∧
    setOpeningHours utcOnly (initService "UTC")
        [{ atType := "OpeningHoursSpecification", dayOfWeek := "Monday",
           opens := "09:00", closes := "12:00" },
         { atType := "OpeningHoursSpecification", dayOfWeek := "Monday",
           opens := "11:59", closes := "17:00" }] "UTC" =
      (.ok (), Service.mk
        [{ atType := "OpeningHoursSpecification", dayOfWeek := "Monday",
           opens := "09:00", closes := "17:00" }] "UTC"
        "Mo 09:00-17:00; Tu off; We off; Th off; Fr off; Sa off; Su off") :=
  ⟨((C1_overlap_amended twoZones
      (Service.mk
        [{ atType := "OpeningHoursSpecification", dayOfWeek := "Monday",
           opens := "09:00", closes := "17:00" }] "UTC"
        "Mo 09:00-17:00; Tu off; We off; Th off; Fr off; Sa off; Su off")
      "Etc/GMT-1"
      [{ atType := "OpeningHoursSpecification", dayOfWeek := "Monday",
         opens := "11:00", closes := "18:00" }]
      [{ atType := "OpeningHoursSpecification", dayOfWeek := "Monday",
         opens := "11:00", closes := "18:00" }]
      [{ atType := "OpeningHoursSpecification", dayOfWeek := "Monday",
         opens := "10:00", closes := "17:00" }]
      "Monday" 1 540 1020 600 1020
      (by decide) (by decide) (by decide) (by decide) (by decide)
      (by decide) (by decide) (by decide) (by decide)).2.2.2.2.1
      (by decide) (by decide) (by decide) "Monday" "11:00" "18:00"
      (by decide)).2 (by decide),
   ((C1_overlap_amended utcOnly (initService "UTC") "UTC"
      [{ atType := "OpeningHoursSpecification", dayOfWeek := "Monday",
         opens := "09:00", closes := "12:00" },
       { atType := "OpeningHoursSpecification", dayOfWeek := "Monday",
         opens := "11:59", closes := "17:00" }]
      [{ atType := "OpeningHoursSpecification", dayOfWeek := "Monday",
         opens := "09:00", closes := "12:00" },
       { atType := "OpeningHoursSpecification", dayOfWeek := "Monday",
         opens := "11:59", closes := "17:00" }]
      [{ atType := "OpeningHoursSpecification", dayOfWeek := "Monday",
         opens := "09:00", closes := "12:00" },
       { atType := "OpeningHoursSpecification", dayOfWeek := "Monday",
         opens := "11:59", closes := "17:00" }]
      "Monday" 1 540 720 719 1020
      (by decide) (by decide) (by decide) (by decide) (by decide)
      (by decide) (by decide) (by decide) (by decide)).1
      (by decide) (by decide)).1 (by decide)⟩

/-! ## Claim C10 -/

/-- Strict per-day ordering on entries: on different weekdays vacuously, on
the same weekday the `opens` minute values increase strictly. -/
def sameDayLtB (a b : OpeningHoursSpecification) : Bool :=
  (a.dayOfWeek != b.dayOfWeek) ||
  optLt (convertTimeToMinutes a.opens) (convertTimeToMinutes b.opens)

/-- Ascending `opens` order on rendered ranges. -/
def rangeLtB (a b : OpenRange) : Bool :=
  optLt (convertTimeToMinutes a.open') (convertTimeToMinutes b.open')

theorem convertDay_eq {d : String} {k : Nat}
    (h : convertDayStringToNumber? d = some k) :
    d = sevenDays.getD (k - 1) "" := by
  unfold convertDayStringToNumber? at h
  split_ifs at h with h1 h2 h3 h4 h5 h6 h7 <;>
    simp only [Option.some.injEq, reduceCtorEq] at h
  · subst h1; subst h; rfl
  · subst h2; subst h; rfl
  · subst h3; subst h; rfl
  · subst h4; subst h; rfl
  · subst h5; subst h; rfl
  · subst h6; subst h; rfl
  · subst h7; subst h; rfl

theorem convertDayStringToNumber_inj {d1 d2 : String} {k : Nat}
    (h1 : convertDayStringToNumber? d1 = some k)
    (h2 : convertDayStringToNumber? d2 = some k) : d1 = d2 := by
  rw [convertDay_eq h1, convertDay_eq h2]

theorem convertDay_contains {d : String} {k : Nat}
    (h : convertDayStringToNumber? d = some k) :
    sevenDays.contains d = true := by
  unfold convertDayStringToNumber? at h
  split_ifs at h with h1 h2 h3 h4 h5 h6 h7
  · subst h1; decide
  · subst h2; decide
  · subst h3; decide
  · subst h4; decide
  · subst h5; decide
  · subst h6; decide
  · subst h7; decide

theorem foldl_keys_const (l : List OpeningHoursSpecification)
    (h : ∀ e ∈ l, sevenDays.contains e.dayOfWeek = true) :
    l.foldl (fun keys spec =>
      if keys.contains spec.dayOfWeek then keys else keys ++ [spec.dayOfWeek])
      sevenDays = sevenDays := by
  induction l with
  | nil => rfl
  | cons e rest ih =>
    simp only [List.foldl_cons]
    rw [if_pos (h e (by simp))]
    exact ih (fun x hx => h x (by simp [hx]))

theorem bucketKeys_eq_sevenDays {l : List OpeningHoursSpecification}
    (h : ∀ e ∈ l, sevenDays.contains e.dayOfWeek = true) :
    bucketKeys l = sevenDays :=
  foldl_keys_const l h

theorem compareOpeningHours_valid {a b : OpeningHoursSpecification}
    {na nb : Nat}
    (hda : convertDayStringToNumber? a.dayOfWeek = some na)
    (hdb : convertDayStringToNumber? b.dayOfWeek = some nb) :
    compareOpeningHours a b =
      if (na : Int) ≠ (nb : Int) then (na : Int) - nb
      else
        match convertTimeToMinutes a.opens, convertTimeToMinutes b.opens with
        | some x, some y => x - y
        | _, _ => 0 := by
  unfold compareOpeningHours
  rw [hda, hdb]
  rfl

theorem specLe_dayLe {a b : OpeningHoursSpecification} {na nb : Nat}
    (hda : convertDayStringToNumber? a.dayOfWeek = some na)
    (hdb : convertDayStringToNumber? b.dayOfWeek = some nb)
    (h : specLe a b = true) : na ≤ nb := by
  unfold specLe at h
  rw [compareOpeningHours_valid hda hdb] at h
  simp only [decide_eq_true_eq] at h
  by_cases hne : (na : Int) = (nb : Int)
  · omega
  · rw [if_pos hne] at h
    omega

/-- The canonical invariant yields the combined sortedness/strict-per-day
relation on every consecutive pair. -/
theorem canonical_chain_combined {l : List OpeningHoursSpecification}
    (h : canonicalInvB l = true) :
    chainB (fun a b => specLe a b && sameDayLtB a b) l = true := by
  have hall := canonicalInvB_all h
  unfold canonicalInvB at h
  simp only [Bool.and_eq_true] at h
  obtain ⟨⟨-, hsle⟩, hgap⟩ := h
  refine chainB_imp l hsle hgap ?_
  intro a ha b hb h1 h2
  simp only [Bool.and_eq_true]
  refine ⟨h1, ?_⟩
  unfold sameDayLtB
  by_cases hday : a.dayOfWeek = b.dayOfWeek
  · obtain ⟨na, vo, vc, -, -, -, -, hvo, hvc, hltv, -, -⟩ :=
      entryOKB_elim (hall a ha)
    obtain ⟨nb, wo, wc, -, -, -, -, hwo, -, -, -, -⟩ :=
      entryOKB_elim (hall b hb)
    unfold gapOKB at h2
    rw [hvc, hwo, hday] at h2
    simp only [bne_self_eq_false, Bool.false_or, decide_eq_true_eq] at h2
    rw [hvo, hwo]
    unfold optLt
    simp only [hday, bne_self_eq_false, Bool.false_or, decide_eq_true_eq]
    omega
  · simp [bne_iff_ne, hday]

/-- The combined relation is transitive on canonical entries. -/
theorem combined_trans {a b c : OpeningHoursSpecification}
    (ha : entryOKB a = true) (hb : entryOKB b = true) (hc : entryOKB c = true)
    (h1 : (specLe a b && sameDayLtB a b) = true)
    (h2 : (specLe b c && sameDayLtB b c) = true) :
    (specLe a c && sameDayLtB a c) = true := by
  simp only [Bool.and_eq_true] at h1 h2 ⊢
  obtain ⟨hs1, hd1⟩ := h1
  obtain ⟨hs2, hd2⟩ := h2
  have hka := entryBasicB_keyOK (entryOKB_basic ha)
  have hkb := entryBasicB_keyOK (entryOKB_basic hb)
  have hkc := entryBasicB_keyOK (entryOKB_basic hc)
  refine ⟨specLe_trans hka hkb hkc hs1 hs2, ?_⟩
  unfold sameDayLtB
  by_cases hac : a.dayOfWeek = c.dayOfWeek
  · obtain ⟨na, vo, vca, -, hdaya, -, -, hvoa, -, -, -, -⟩ := entryOKB_elim ha
    obtain ⟨nb, wo, wcb, -, hdayb, -, -, hwob, -, -, -, -⟩ := entryOKB_elim hb
    obtain ⟨nc, xo, xcc, -, hdayc, -, -, hxoc, -, -, -, -⟩ := entryOKB_elim hc
    have hdaya' : convertDayStringToNumber? c.dayOfWeek = some na := by
      rw [← hac]
      exact hdaya
    have hnac : na = nc := Option.some.inj (hdaya'.symm.trans hdayc)
    have h1n : na ≤ nb := specLe_dayLe hdaya hdayb hs1
    have h2n : nb ≤ nc := specLe_dayLe hdayb hdayc hs2
    have hnab : na = nb := by omega
    have hdayab : a.dayOfWeek = b.dayOfWeek :=
      convertDayStringToNumber_inj hdaya (by rw [hnab]; exact hdayb)
    have hdaybc : b.dayOfWeek = c.dayOfWeek :=
      convertDayStringToNumber_inj hdayb (by
        rw [show nb = nc by omega]
        exact hdayc)
    unfold sameDayLtB at hd1 hd2
    rw [hdayab] at hd1
    rw [hdaybc] at hd2
    simp only [bne_self_eq_false, Bool.false_or] at hd1 hd2
    rw [hvoa, hwob] at hd1
    rw [hwob, hxoc] at hd2
    unfold optLt at hd1 hd2
    simp only [decide_eq_true_eq] at hd1 hd2
    rw [hac, hvoa, hxoc]
    unfold optLt
    simp only [bne_self_eq_false, Bool.false_or, decide_eq_true_eq]
    omega
  · simp [bne_iff_ne, hac]

/-- A chain whose relation is transitive on the list's elements is pairwise. -/
theorem chainB_pairwise {α : Type} {r : α → α → Bool} {p : α → Bool}
    {l : List α} (hl : ∀ a ∈ l, p a = true)
    (htrans : ∀ a b c, p a = true → p b = true → p c = true →
      r a b = true → r b c = true → r a c = true)
    (hc : chainB r l = true) :
    List.Pairwise (fun a b => r a b = true) l := by
  induction l with
  | nil => exact List.Pairwise.nil
  | cons a rest ih =>
    have hrest : chainB r rest = true := chainB_tail hc
    have hp := ih (fun x hx => hl x (by simp [hx])) hrest
    refine List.Pairwise.cons ?_ hp
    intro x hx
    cases rest with
    | nil => cases hx
    | cons b tl =>
      have hab : r a b = true := by
        simp only [chainB_cons_cons, Bool.and_eq_true] at hc
        exact hc.1
      rcases List.mem_cons.mp hx with rfl | hx'
      · exact hab
      · have hbx : r b x = true := by
          rcases List.pairwise_cons.mp hp with ⟨hbs, -⟩
          exact hbs x hx'
        exact htrans a b x (hl a (by simp)) (hl b (by simp))
          (hl x (by simp [hx'])) hab hbx

theorem chainB_of_pairwise {α : Type} {r : α → α → Bool} {l : List α}
    (h : List.Pairwise (fun a b => r a b = true) l) : chainB r l = true := by
  induction l with
  | nil => rfl
  | cons a rest ih =>
    cases rest with
    | nil => rfl
    | cons b tl =>
      rcases List.pairwise_cons.mp h with ⟨hab, hrest⟩
      simp only [chainB_cons_cons, Bool.and_eq_true]
      exact ⟨hab b (by simp), ih hrest⟩

/-- C10: on every reachable state, querying the per-day view in the internal
timezone succeeds without touching the state and returns exactly one record
per weekday in the fixed Monday-first order (empty `openRange` for a weekday
with no intervals, never a missing record or an error), each record listing
that weekday's stored intervals with strictly ascending `opens` minutes. -/
theorem C10_per_day_view (tzdb : Tzdb) (s : Service) (hs : Reachable tzdb s) :
    ∃ view : List OpenRangePerDay,
      getOpenRangePerDay tzdb s s.userTimezone = (.ok view, s) ∧
      view = sevenDays.map (fun day =>
        { atType := "OpenRangePerDay", dayOfWeek := day,
          openRange := (s.openingHours.filter
              (fun e => e.dayOfWeek == day)).map
            (fun e => { open' := e.opens, closes := e.closes }) }) ∧
      view.length = 7 ∧
      view.map (fun r => r.dayOfWeek) = sevenDays ∧
      ∀ r ∈ view, chainB rangeLtB r.openRange = true := by
  have hinv := (reachable_stateInv hs).1
  have hall := canonicalInvB_all hinv
  have hcall : getOpenRangePerDay tzdb s s.userTimezone =
      (.ok (getOpenRangePerDayPure s.openingHours), s) := by
    unfold getOpenRangePerDay
    rw [if_neg (by simp)]
    simp [Bind.bind, Except.bind, pure, Except.pure]
  have hkeys : bucketKeys s.openingHours = sevenDays := by
    apply bucketKeys_eq_sevenDays
    intro e he
    obtain ⟨n, -, -, -, hday, -, -, -, -, -, -, -⟩ := entryOKB_elim (hall e he)
    exact convertDay_contains hday
  have hview : getOpenRangePerDayPure s.openingHours = sevenDays.map (fun day =>
      { atType := "OpenRangePerDay", dayOfWeek := day,
        openRange := (s.openingHours.filter
            (fun e => e.dayOfWeek == day)).map
          (fun e => { open' := e.opens, closes := e.closes }) }) := by
    unfold getOpenRangePerDayPure
    rw [hkeys]
  refine ⟨getOpenRangePerDayPure s.openingHours, hcall, hview, ?_, ?_, ?_⟩
  · rw [hview]
    rfl
  · rw [hview]
    rfl
  · intro r hr
    rw [hview] at hr
    rcases List.mem_map.mp hr with ⟨day, hdaymem, rfl⟩
    dsimp only
    have hchain := canonical_chain_combined hinv
    have hpair : List.Pairwise
        (fun a b => (specLe a b && sameDayLtB a b) = true) s.openingHours :=
      chainB_pairwise hall
        (fun a b c pa pb pc => combined_trans pa pb pc) hchain
    have hpairf := hpair.filter (fun e => e.dayOfWeek == day)
    apply chainB_of_pairwise
    rw [List.pairwise_map]
    refine hpairf.imp_of_mem ?_
    intro a b hamem hbmem hab
    have hda : a.dayOfWeek = day := by
      have := List.mem_filter.mp hamem
      simpa using this.2
    have hdb : b.dayOfWeek = day := by
      have := List.mem_filter.mp hbmem
      simpa using this.2
    simp only [Bool.and_eq_true] at hab
    have hsd := hab.2
    unfold sameDayLtB at hsd
    rw [hda, hdb] at hsd
    simp only [bne_self_eq_false, Bool.false_or] at hsd
    exact hsd

/-- Witness for C10 on a concrete reachable state holding one Monday
interval. -/
theorem C10_per_day_view_witness :
    ∃ view : List OpenRangePerDay,
      getOpenRangePerDay utcOnly
          (Service.mk
            [{ atType := "OpeningHoursSpecification", dayOfWeek := "Monday",
               opens := "09:00", closes := "17:00" }] "UTC"
            "Mo 09:00-17:00; Tu off; We off; Th off; Fr off; Sa off; Su off")
          "UTC" =
        (.ok view, Service.mk
          [{ atType := "OpeningHoursSpecification", dayOfWeek := "Monday",
             opens := "09:00", closes := "17:00" }] "UTC"
          "Mo 09:00-17:00; Tu off; We off; Th off; Fr off; Sa off; Su off") ∧
      view = sevenDays.map (fun day =>
        { atType := "OpenRangePerDay", dayOfWeek := day,
          openRange := ((Service.mk
              [{ atType := "OpeningHoursSpecification", dayOfWeek := "Monday",
                 opens := "09:00", closes := "17:00" }] "UTC"
              "Mo 09:00-17:00; Tu off; We off; Th off; Fr off; Sa off; Su off").openingHours.filter
              (fun e => e.dayOfWeek == day)).map
            (fun e => { open' := e.opens, closes := e.closes }) }) ∧
      view.length = 7 ∧
      view.map (fun r => r.dayOfWeek) = sevenDays ∧
      ∀ r ∈ view, chainB rangeLtB r.openRange = true :=
  C10_per_day_view utcOnly
    (Service.mk
      [{ atType := "OpeningHoursSpecification", dayOfWeek := "Monday",
         opens := "09:00", closes := "17:00" }] "UTC"
      "Mo 09:00-17:00; Tu off; We off; Th off; Fr off; Sa off; Su off")
    (Reachable.set (Reachable.init "UTC")
      (show setOpeningHours utcOnly (initService "UTC")
          [{ atType := "OpeningHoursSpecification", dayOfWeek := "Monday",
             opens := "09:00", closes := "17:00" }] "UTC" =
          (Except.ok (), Service.mk
            [{ atType := "OpeningHoursSpecification", dayOfWeek := "Monday",
               opens := "09:00", closes := "17:00" }] "UTC"
            "Mo 09:00-17:00; Tu off; We off; Th off; Fr off; Sa off; Su off")
        by decide))
